import Mathlib

/-!
Verification of the messageworks hierarchical message router.

The address model (`messenger-utils.ts`) is embedded over `List Char`
(JavaScript strings) and `List (List Char)` (segment arrays).  The
`MessagingService` routing logic (`messaging-service.ts`) is embedded as pure
state-transition functions emitting dispatch events.
-/

set_option maxHeartbeats 1000000

namespace MessageWorks

/-- JavaScript strings are modelled as lists of characters. -/
abbrev Str := List Char

/-- The address separator character used by the library. -/
def sepC : Char := '/'

/-- Whitespace predicate used by `String.prototype.trim`. -/
def isWs (c : Char) : Bool := c.isWhitespace

/-- Left whitespace trim, the left half of `s.trim()`. -/
def trimL (s : Str) : Str := s.dropWhile isWs

/-- Right whitespace trim, the right half of `s.trim()`. -/
def trimR : Str → Str
  | [] => []
  | c :: rest =>
    match trimR rest with
    | [] => if isWs c then [] else [c]
    | d :: r => c :: d :: r

/-- Full `s.trim()`: whitespace removed from both ends. -/
def trimStr (s : Str) : Str := trimR (trimL s)

/-- Drop the leading run of separators: the `^\/+` half of the trim regex. -/
def dropLeadSep (s : Str) : Str := s.dropWhile (fun c => c == sepC)

/-- Drop the trailing run of separators: the `\/+$` half of the trim regex. -/
def dropTrailSep : Str → Str
  | [] => []
  | c :: rest =>
    match dropTrailSep rest with
    | [] => if c == sepC then [] else [c]
    | d :: r => c :: d :: r

/-- Replace every run of consecutive separators by a single separator,
the `replace(/\/+/g, '/')` step. -/
def collapseSep : Str → Str
  | [] => []
  | [c] => [c]
  | c :: d :: rest =>
    if c == sepC && d == sepC then collapseSep (d :: rest)
    else c :: collapseSep (d :: rest)

/-- Head piece and remaining pieces of `s.split('/')`. -/
def splitSepCore : Str → Str × List Str
  | [] => ([], [])
  | c :: rest =>
    let r := splitSepCore rest
    if c == sepC then ([], r.1 :: r.2) else (c :: r.1, r.2)

/-- JavaScript `s.split('/')`: always returns at least one piece. -/
def splitSep (s : Str) : List Str := (splitSepCore s).1 :: (splitSepCore s).2

/-- JavaScript `pieces.join('/')`. -/
def joinSep : List Str → Str
  | [] => []
  | [p] => p
  | p :: q :: ps => p ++ sepC :: joinSep (q :: ps)

/-- JavaScript `pieces.filter(Boolean)`: keep the non-empty strings. -/
def filterNe (l : List Str) : List Str := l.filter (fun p => !p.isEmpty)

/-- A `Messenger` is an address in string form or in segment-array form. -/
inductive Messenger where
  | str (s : Str)
  | arr (l : List Str)
deriving DecidableEq

/-- The string branch of `normalizeMessenger`: trim whitespace, trim
leading/trailing separators, collapse separator runs, split, drop the empty
segments and rejoin. -/
def normalizeStr (s : Str) : Str :=
  joinSep (filterNe (splitSep (collapseSep (dropTrailSep (dropLeadSep (trimStr s))))))

/-- The array branch of `normalizeMessenger`: trim every element, drop empty
elements, join with the separator, split back and drop empty segments. -/
def normalizeArr (l : List Str) : List Str :=
  filterNe (splitSep (joinSep (filterNe (l.map trimStr))))

/-- Top-level `normalizeMessenger`: throws on `null`/`undefined` (modelled by
`none`), otherwise normalizes either form. -/
def normalizeMessenger : Option Messenger → Except Str Messenger
  | none => .error ("Invalid Messenger".toList)
  | some (.str s) => .ok (.str (normalizeStr s))
  | some (.arr l) => .ok (.arr (normalizeArr l))

/-- `messengerAsArray`: canonical segment sequence of an address. -/
def messengerAsArray : Messenger → List Str
  | .arr l => normalizeArr l
  | .str s => filterNe ((splitSep (normalizeStr s)).map trimStr)

/-- `messengerAsString`: canonical string form, always starting with `/`. -/
def messengerAsString : Messenger → Str
  | .str s => sepC :: normalizeStr s
  | .arr l => sepC :: joinSep (filterNe ((normalizeArr l).map trimStr))

/-- JavaScript truthiness of a `Messenger` value: the empty string is falsy,
every array (even the empty one) is truthy. -/
def truthyM : Messenger → Bool
  | .str s => !s.isEmpty
  | .arr _ => true

/-- `messengersAreEqual`: `false` for `null`/`undefined`/falsy inputs,
otherwise string-form comparison. -/
def messengersAreEqual (m1 m2 : Option Messenger) : Bool :=
  match m1, m2 with
  | some a, some b =>
    if truthyM a && truthyM b then decide (messengerAsString a = messengerAsString b)
    else false
  | _, _ => false

/-- The pairwise segment-comparison loop of `messengerIsUpstream`: scans the
positions of the first list and reports the first position whose segments
differ (a missing right-hand segment counts as different, as `undefined`
does in JavaScript). -/
def segMismatch : List Str → List Str → Bool
  | [], _ => false
  | _ :: _, [] => true
  | a :: as, b :: bs => if a = b then segMismatch as bs else true

/-- `messengerIsUpstream here there`: decides whether `there` lies on the
upstream link relative to `here`. -/
def messengerIsUpstream (here there : Messenger) : Bool :=
  let f := messengerAsArray here
  let t := messengerAsArray there
  if f.length = 0 then false
  else if t.length < f.length then true
  else if segMismatch f t then true
  else if f.length = t.length then false
  else false

/-! ## Messaging service model

`messaging-service.ts` is embedded as pure state-transition functions.
Channel endpoints (workers, the parent port) are identified by numbers;
dispatching through a channel is recorded as an event.  UUIDs and promise
identities are modelled by counters in the state: only equality of ids is
ever used by the code. -/

/-- The three message tags of the message model. -/
inductive MessageType where
  | GENERAL
  | REQUEST
  | RESPONSE
deriving DecidableEq

/-- The message envelope (`GeneralMessage`, with the `requestId` field that
`ResponseMessage` adds; it is `none` on non-response messages). -/
structure GMessage where
  id : Nat
  name : Str
  mtype : MessageType
  broadcast : Bool
  source : Messenger
  destination : Messenger
  data : Option Nat
  requestId : Option Nat
deriving DecidableEq

/-- `Map.set`: replace the value of an existing key in place, else append. -/
def mapSet {β : Type} : List (Nat × β) → Nat → β → List (Nat × β)
  | [], k, v => [(k, v)]
  | (k', v') :: rest, k, v =>
    if k' = k then (k, v) :: rest else (k', v') :: mapSet rest k v

/-- `Map.get`: first value stored under the key, if any. -/
def mapGet {β : Type} : List (Nat × β) → Nat → Option β
  | [], _ => none
  | (k', v') :: rest, k => if k' = k then some v' else mapGet rest k

/-- `Map.delete`: remove the entry stored under the key, if any. -/
def mapDel {β : Type} : List (Nat × β) → Nat → List (Nat × β)
  | [], _ => []
  | (k', v') :: rest, k => if k' = k then rest else (k', v') :: mapDel rest k

/-- `Map.set` for the string-keyed worker map. -/
def wmapSet : List (Str × Nat) → Str → Nat → List (Str × Nat)
  | [], k, v => [(k, v)]
  | (k', v') :: rest, k, v =>
    if k' = k then (k, v) :: rest else (k', v') :: wmapSet rest k v

/-- State of one `MessagingService` instance.  `responseHandlers` maps a
request id to the pair (captured `message.id`, promise identity) of the
registered response handler; `upstreamAvail` is whether an upstream
primitive (`parentPort` or web-worker `self`) exists. -/
structure SvcState where
  messenger : Messenger
  workers : List (Str × Nat)
  responseHandlers : List (Nat × Nat × Nat)
  upstreamAvail : Bool
  nextUuid : Nat
  nextPid : Nat
deriving DecidableEq

/-- A dispatch target selected by `sendMessage`. -/
inductive RouteTarget where
  | overrideWorker (wid : Nat)
  | upstreamPort
  | childWorker (wid : Nat)
deriving DecidableEq

/-- Observable actions of the receive path. -/
inductive SvcEvent where
  | resolveP (pid : Nat) (m : GMessage)
  | hookCall (m : GMessage)
  | fwdUp (m : GMessage)
  | fwdDown (wid : Nat) (m : GMessage)
deriving DecidableEq

/-- `getWorkerKey`: the full child address `here + name` in string form. -/
def getWorkerKey (st : SvcState) (name : Str) : Str :=
  messengerAsString (.arr (messengerAsArray st.messenger ++ [name]))

/-- `addWorker`: no-op on a falsy name, else register the worker under its
full child address. -/
def addWorker (st : SvcState) (name : Str) (wid : Nat) : SvcState :=
  if name.isEmpty then st
  else { st with workers := wmapSet st.workers (getWorkerKey st name) wid }

/-- Route selection of `sendMessage`: worker override first, else the
upstream primitive when the destination is upstream, else the downstream
fan-out over the registered children. -/
def routeDestinations (st : SvcState) (msg : GMessage) (w : Option Nat) :
    List RouteTarget :=
  match w with
  | some wid => [RouteTarget.overrideWorker wid]
  | none =>
    if messengerIsUpstream st.messenger msg.destination then
      if st.upstreamAvail then [RouteTarget.upstreamPort] else []
    else
      let here := messengerAsArray st.messenger
      let there := messengerAsArray msg.destination
      let nextHop := there.take (here.length + 1)
      st.workers.filterMap (fun kw =>
        if msg.broadcast then some (RouteTarget.childWorker kw.2)
        else if messengersAreEqual (some msg.destination) (some (.str kw.1)) then
          some (RouteTarget.childWorker kw.2)
        else if messengersAreEqual (some (.arr nextHop)) (some (.str kw.1)) then
          some (RouteTarget.childWorker kw.2)
        else none)

/-- Result of one `sendMessage` call: the stamped message, the selected
targets, the successor state, the per-destination pending promises of a
request, and whether the returned future resolves right away (with `null`). -/
structure SendResult where
  message : GMessage
  targets : List RouteTarget
  state : SvcState
  reqPromises : List Nat
  resolvedNow : Bool
deriving DecidableEq

/-- `sendMessage`: stamp `source`/`id`, select the route and, for a request,
register one response handler per destination under the key `message.id`
(each `Map.set` overwriting the previous registration). -/
def sendMessage (st : SvcState) (msg0 : GMessage) (w : Option Nat) : SendResult :=
  let msg := { msg0 with source := st.messenger, id := st.nextUuid }
  let st1 := { st with nextUuid := st.nextUuid + 1 }
  let targets := routeDestinations st1 msg w
  if targets.isEmpty then
    { message := msg, targets := targets, state := st1, reqPromises := [],
      resolvedNow := true }
  else if msg.mtype = MessageType.REQUEST then
    let pids := (List.range targets.length).map (fun i => st1.nextPid + i)
    let handlers := pids.foldl (fun hs p => mapSet hs msg.id (msg.id, p))
      st1.responseHandlers
    let st2 := { st1 with responseHandlers := handlers, nextPid := st1.nextPid + targets.length }
    { message := msg, targets := targets, state := st2,
      reqPromises := pids, resolvedNow := false }
  else
    { message := msg, targets := targets, state := st1, reqPromises := [],
      resolvedNow := true }

/-- `forwardMessage`: one further hop for a message not addressed here. -/
def forwardMessage (st : SvcState) (m : GMessage) : SvcState × List SvcEvent :=
  if messengerIsUpstream st.messenger m.destination then
    (st, if st.upstreamAvail then [SvcEvent.fwdUp m] else [])
  else if messengersAreEqual (some st.messenger) (some m.destination) then
    (st, [SvcEvent.hookCall m])
  else
    let here := messengerAsArray st.messenger
    let nxt := (messengerAsArray m.destination).take (here.length + 1)
    (st, st.workers.filterMap (fun kw =>
      if messengersAreEqual (some m.destination) (some (.str kw.1)) then
        some (SvcEvent.fwdDown kw.2 m)
      else if messengersAreEqual (some (.arr nxt)) (some (.str kw.1)) then
        some (SvcEvent.fwdDown kw.2 m)
      else none))

/-- `handleMessage`: the receive path.  A response addressed here (or
broadcast) resolves the pending handler found under its `requestId`, if any,
and removes it; other messages addressed here reach the received-message
hook; everything else is forwarded. -/
def handleMessage (st : SvcState) (m : GMessage) : SvcState × List SvcEvent :=
  if m.broadcast || messengersAreEqual (some m.destination) (some st.messenger) then
    if m.mtype = MessageType.RESPONSE then
      match m.requestId with
      | some rid =>
        match mapGet st.responseHandlers rid with
        | some (cap, pid) =>
          if rid = cap then
            let hs2 := mapDel (mapDel st.responseHandlers rid) rid
            ({ st with responseHandlers := hs2 }, [SvcEvent.resolveP pid m])
          else
            ({ st with responseHandlers := mapDel st.responseHandlers rid }, [])
        | none =>
          ({ st with responseHandlers := mapDel st.responseHandlers rid }, [])
      | none => (st, [])
    else
      (st, [SvcEvent.hookCall m])
  else
    forwardMessage st m

/-- Run the receive path over a sequence of incoming messages, accumulating
the emitted events. -/
def runMessages (st : SvcState) : List GMessage → SvcState × List SvcEvent
  | [] => (st, [])
  | m :: ms =>
    let r := handleMessage st m
    let r2 := runMessages r.1 ms
    (r2.1, r.2 ++ r2.2)

/-- Promise identities currently registered in the pending-responder map. -/
def handlerPids (st : SvcState) : List Nat :=
  st.responseHandlers.map (fun e => e.2.2)

/-- The message carried by an event. -/
def eventMessage : SvcEvent → GMessage
  | .resolveP _ m => m
  | .hookCall m => m
  | .fwdUp m => m
  | .fwdDown _ m => m

/-! ## Specification helpers -/

/-- First piece of a separator split. -/
def hpiece (s : Str) : Str := (splitSepCore s).1

/-- Remaining pieces of a separator split. -/
def tpieces (s : Str) : List Str := (splitSepCore s).2

/-- Split followed by dropping the empty pieces. -/
def fne (s : Str) : List Str := filterNe (splitSep s)

/-- The canonical segment sequence read off a raw string: split at
separators, trim each piece, drop the pieces that become empty. -/
def canonOf (s : Str) : List Str := filterNe ((splitSep s).map trimStr)

/-- Modify the last element of a list. -/
def mLast (f : Str → Str) : List Str → List Str
  | [] => []
  | [p] => [f p]
  | p :: q :: ps => p :: mLast f (q :: ps)

/-! ## Concrete fixtures

A router at address `["a"]` with two children registered under the names
`"b"` and `"c"` (worker ids `0` and `1`), used to instantiate the theorems
on concrete states. -/

/-- A fresh service at address `["a"]` with an upstream primitive. -/
def wsvcBase : SvcState :=
  { messenger := .arr ["a".toList], workers := [], responseHandlers := [],
    upstreamAvail := true, nextUuid := 100, nextPid := 0 }

/-- The base service with children `"b"` (worker 0) and `"c"` (worker 1). -/
def wsvcA : SvcState := addWorker (addWorker wsvcBase "b".toList 0) "c".toList 1

/-- The base service with no children and no upstream primitive. -/
def wsvcNoRoute : SvcState := { wsvcBase with upstreamAvail := false }

/-- A plain non-broadcast message to `["a","c"]`. -/
def wmsgGen : GMessage :=
  { id := 0, name := "go".toList, mtype := .GENERAL, broadcast := false,
    source := .arr [], destination := .arr ["a".toList, "c".toList],
    data := none, requestId := none }

/-- A broadcast message whose destination is the root (upstream of `["a"]`). -/
def wmsgBcast : GMessage := { wmsgGen with broadcast := true, destination := .arr [] }

/-- A request to the child `["a","b"]`. -/
def wmsgReq : GMessage :=
  { wmsgGen with mtype := .REQUEST, destination := .arr ["a".toList, "b".toList] }

/-- A broadcast request (two destinations at `wsvcA`). -/
def wmsgBReq : GMessage := { wmsgGen with mtype := .REQUEST, broadcast := true }

/-- A response to the request `wmsgReq` as stamped by `wsvcA` (id 100). -/
def wmsgResp : GMessage :=
  { id := 77, name := [], mtype := .RESPONSE, broadcast := false,
    source := .arr ["a".toList, "b".toList], destination := .arr ["a".toList],
    data := none, requestId := some 100 }

/-- A message with no resolvable route at `wsvcNoRoute`. -/
def wmsgUp : GMessage := { wmsgGen with destination := .arr [] }

/-! ## Split and join basics -/

theorem splitSep_eq (s : Str) : splitSep s = hpiece s :: tpieces s := rfl

theorem hpiece_nil : hpiece [] = [] := rfl

theorem tpieces_nil : tpieces [] = [] := rfl

theorem hpiece_cons_sep (rest : Str) : hpiece (sepC :: rest) = [] := by
  simp [hpiece, splitSepCore]

theorem tpieces_cons_sep (rest : Str) :
    tpieces (sepC :: rest) = hpiece rest :: tpieces rest := by
  simp [tpieces, hpiece, splitSepCore]

theorem hpiece_cons_ne {c : Char} (h : c ≠ sepC) (rest : Str) :
    hpiece (c :: rest) = c :: hpiece rest := by
  simp [hpiece, splitSepCore, h]

theorem tpieces_cons_ne {c : Char} (h : c ≠ sepC) (rest : Str) :
    tpieces (c :: rest) = tpieces rest := by
  simp [tpieces, splitSepCore, h]

theorem splitSep_cons_sep (rest : Str) :
    splitSep (sepC :: rest) = [] :: splitSep rest := by
  simp [splitSep_eq, hpiece_cons_sep, tpieces_cons_sep]

theorem splitSep_cons_ne {c : Char} (h : c ≠ sepC) (rest : Str) :
    splitSep (c :: rest) = (c :: hpiece rest) :: tpieces rest := by
  simp [splitSep_eq, hpiece_cons_ne h, tpieces_cons_ne h]

theorem hpiece_eq_self {s : Str} (h : tpieces s = []) : hpiece s = s := by
  induction s with
  | nil => rfl
  | cons c rest ih =>
    by_cases hc : c = sepC
    · subst hc
      rw [tpieces_cons_sep] at h
      exact absurd h (by simp)
    · rw [tpieces_cons_ne hc] at h
      rw [hpiece_cons_ne hc, ih h]

theorem sep_not_mem_splitSep {s : Str} {p : Str} (hp : p ∈ splitSep s) :
    sepC ∉ p := by
  induction s generalizing p with
  | nil =>
    simp only [splitSep, splitSepCore] at hp
    simp at hp
    simp [hp]
  | cons c rest ih =>
    by_cases hc : c = sepC
    · subst hc
      rw [splitSep_cons_sep] at hp
      rcases List.mem_cons.mp hp with h | h
      · simp [h]
      · exact ih h
    · rw [splitSep_cons_ne hc] at hp
      rcases List.mem_cons.mp hp with h | h
      · subst h
        intro hmem
        rcases List.mem_cons.mp hmem with h | h
        · exact hc h.symm
        · have : hpiece rest ∈ splitSep rest := by
            rw [splitSep_eq]; exact List.mem_cons_self _ _
          exact ih this h
      · have : p ∈ splitSep rest := by
          rw [splitSep_eq]; exact List.mem_cons.mpr (Or.inr h)
        exact ih this


theorem splitSep_sepFree {p : Str} (h : sepC ∉ p) : splitSep p = [p] := by
  induction p with
  | nil => rfl
  | cons c rest ih =>
    have hc : c ≠ sepC := fun hc => h (by simp [hc])
    have hrest : sepC ∉ rest := fun hm => h (List.mem_cons.mpr (Or.inr hm))
    have := ih hrest
    rw [splitSep_eq] at this
    have h1 : hpiece rest = rest := by
      have := congrArg (fun l => l.headI) this
      simpa using this
    have h2 : tpieces rest = [] := by
      have := congrArg (fun l => l.tail) this
      simpa using this
    rw [splitSep_cons_ne hc, h1, h2]

theorem splitSep_append_sep {p : Str} (h : sepC ∉ p) (t : Str) :
    splitSep (p ++ sepC :: t) = p :: splitSep t := by
  induction p with
  | nil => simpa using splitSep_cons_sep t
  | cons c rest ih =>
    have hc : c ≠ sepC := fun hc => h (by simp [hc])
    have hrest : sepC ∉ rest := fun hm => h (List.mem_cons.mpr (Or.inr hm))
    have hr := ih hrest
    rw [splitSep_eq] at hr
    have h1 : hpiece (rest ++ sepC :: t) = rest := by
      have := congrArg (fun l => l.headI) hr
      simpa using this
    have h2 : tpieces (rest ++ sepC :: t) = splitSep t := by
      have := congrArg (fun l => l.tail) hr
      simpa [splitSep_eq] using this
    rw [List.cons_append, splitSep_cons_ne hc, h1, h2, splitSep_eq]

theorem splitSep_joinSep {Q : List Str} (hne : Q ≠ [])
    (hfree : ∀ p ∈ Q, sepC ∉ p) : splitSep (joinSep Q) = Q := by
  induction Q with
  | nil => exact absurd rfl hne
  | cons p Q' ih =>
    cases Q' with
    | nil =>
      simp only [joinSep]
      exact splitSep_sepFree (hfree p (List.mem_cons_self _ _))
    | cons q ps =>
      have hj : joinSep (p :: q :: ps) = p ++ sepC :: joinSep (q :: ps) := rfl
      rw [hj, splitSep_append_sep (hfree p (List.mem_cons_self _ _))]
      rw [ih (by simp) (fun r hr => hfree r (List.mem_cons.mpr (Or.inr hr)))]

/-! ## Trimming lemmas -/

theorem isWs_sepC : isWs sepC = false := by decide

theorem trimL_nil : trimL [] = [] := rfl

theorem trimL_cons_ws {c : Char} (h : isWs c = true) (rest : Str) :
    trimL (c :: rest) = trimL rest := by
  simp [trimL, List.dropWhile, h]

theorem trimL_cons_not_ws {c : Char} (h : isWs c = false) (rest : Str) :
    trimL (c :: rest) = c :: rest := by
  simp [trimL, List.dropWhile, h]

theorem trimL_idem (s : Str) : trimL (trimL s) = trimL s := by
  induction s with
  | nil => rfl
  | cons c rest ih =>
    by_cases h : isWs c = true
    · rw [trimL_cons_ws h, ih]
    · have h' : isWs c = false := by simpa using h
      rw [trimL_cons_not_ws h', trimL_cons_not_ws h']

theorem trimR_nil : trimR [] = [] := by
  simp [trimR]

theorem trimR_cons_of_nil {c : Char} {rest : Str} (h : trimR rest = []) :
    trimR (c :: rest) = if isWs c then [] else [c] := by
  simp [trimR, h]

theorem trimR_cons_of_cons {c d : Char} {rest r : Str} (h : trimR rest = d :: r) :
    trimR (c :: rest) = c :: d :: r := by
  simp [trimR, h]

theorem trimR_eq_nil_iff (x : Str) :
    trimR x = [] ↔ ∀ c ∈ x, isWs c = true := by
  induction x with
  | nil => simp [trimR_nil]
  | cons c rest ih =>
    cases h : trimR rest with
    | nil =>
      rw [trimR_cons_of_nil h]
      by_cases hc : isWs c = true
      · simp only [hc, if_true, true_iff]
        intro d hd
        rcases List.mem_cons.mp hd with h1 | h1
        · rw [h1]; exact hc
        · exact (ih.mp h) d h1
      · simp only [hc, if_false]
        constructor
        · intro hcon; exact absurd hcon (by simp)
        · intro hall
          exact absurd (hall c (List.mem_cons_self _ _)) hc
    | cons d r =>
      rw [trimR_cons_of_cons h]
      constructor
      · intro hcon; exact absurd hcon (by simp)
      · intro hall
        have : trimR rest = [] := ih.mpr (fun e he => hall e (List.mem_cons.mpr (Or.inr he)))
        rw [this] at h
        exact absurd h (by simp)

theorem trimL_eq_nil_of_allWs {x : Str} (h : ∀ c ∈ x, isWs c = true) :
    trimL x = [] := by
  induction x with
  | nil => rfl
  | cons c rest ih =>
    rw [trimL_cons_ws (h c (List.mem_cons_self _ _))]
    exact ih (fun d hd => h d (List.mem_cons.mpr (Or.inr hd)))

theorem trimR_idem (s : Str) : trimR (trimR s) = trimR s := by
  induction s with
  | nil => rfl
  | cons c rest ih =>
    cases h : trimR rest with
    | nil =>
      rw [trimR_cons_of_nil h]
      by_cases hc : isWs c = true
      · simp [hc, trimR_nil]
      · have hc' : isWs c = false := by simpa using hc
        simp only [hc', Bool.false_eq_true, if_false]
        rw [trimR_cons_of_nil trimR_nil]
        simp [hc']
    | cons d r =>
      rw [trimR_cons_of_cons h]
      rw [h] at ih
      exact trimR_cons_of_cons ih

theorem trimL_trimR_comm (s : Str) : trimL (trimR s) = trimR (trimL s) := by
  induction s with
  | nil => rfl
  | cons c rest ih =>
    by_cases hc : isWs c = true
    · rw [trimL_cons_ws hc]
      cases h : trimR rest with
      | nil =>
        rw [trimR_cons_of_nil h, if_pos hc, trimL_nil]
        have hall := (trimR_eq_nil_iff rest).mp h
        have h2 : trimL rest = [] := trimL_eq_nil_of_allWs hall
        rw [show trimR (trimL rest) = [] from by rw [h2]; exact trimR_nil]
      | cons d r =>
        rw [trimR_cons_of_cons h, trimL_cons_ws hc, ← h, ih]
    · have hc' : isWs c = false := by simpa using hc
      rw [trimL_cons_not_ws hc']
      cases h : trimR rest with
      | nil =>
        rw [trimR_cons_of_nil h, if_neg (by simp [hc'])]
        exact trimL_cons_not_ws hc' []
      | cons d r =>
        rw [trimR_cons_of_cons h, trimL_cons_not_ws hc' (d :: r)]

theorem trimStr_trimL (p : Str) : trimStr (trimL p) = trimStr p := by
  unfold trimStr
  rw [trimL_idem]

theorem trimStr_trimR (p : Str) : trimStr (trimR p) = trimStr p := by
  unfold trimStr
  rw [trimL_trimR_comm, trimR_idem]

theorem trimStr_idem (p : Str) : trimStr (trimStr p) = trimStr p := by
  unfold trimStr
  rw [trimL_trimR_comm, trimR_idem, trimL_idem]

/-! ## Filtering lemmas -/

theorem trimStr_nil : trimStr [] = [] := by
  simp [trimStr, trimL_nil, trimR_nil]

theorem filterNe_nil : filterNe [] = [] := rfl

theorem filterNe_cons_nil (l : List Str) : filterNe ([] :: l) = filterNe l := by
  simp [filterNe]

theorem filterNe_cons_ne {p : Str} (h : p ≠ []) (l : List Str) :
    filterNe (p :: l) = p :: filterNe l := by
  cases p with
  | nil => exact absurd rfl h
  | cons c cs => simp [filterNe]

theorem filterNe_cons_congr {l1 l2 : List Str} (a : Str)
    (h : filterNe l1 = filterNe l2) : filterNe (a :: l1) = filterNe (a :: l2) := by
  cases a with
  | nil => rw [filterNe_cons_nil, filterNe_cons_nil, h]
  | cons c cs =>
    rw [filterNe_cons_ne (by simp) l1, filterNe_cons_ne (by simp) l2, h]

theorem filterNe_eq_nil_iff (l : List Str) :
    filterNe l = [] ↔ ∀ p ∈ l, p = [] := by
  induction l with
  | nil => simp [filterNe_nil]
  | cons p ps ih =>
    cases p with
    | nil => simp [filterNe_cons_nil, ih]
    | cons c cs => simp [filterNe_cons_ne (p := c :: cs) (by simp) ps]

theorem mem_filterNe {l : List Str} {p : Str} (h : p ∈ filterNe l) :
    p ∈ l ∧ p ≠ [] := by
  unfold filterNe at h
  have h1 := List.of_mem_filter h
  have h2 := List.mem_of_mem_filter h
  refine ⟨h2, ?_⟩
  intro he
  rw [he] at h1
  simp at h1

/-! ## Splitting commutes with trimming -/

theorem mLast_nil (f : Str → Str) : mLast f [] = [] := rfl

theorem mLast_single (f : Str → Str) (p : Str) : mLast f [p] = [f p] := rfl

theorem mLast_cons₂ (f : Str → Str) (p q : Str) (ps : List Str) :
    mLast f (p :: q :: ps) = p :: mLast f (q :: ps) := rfl

theorem mLast_length (f : Str → Str) (l : List Str) :
    (mLast f l).length = l.length := by
  induction l with
  | nil => rfl
  | cons p ps ih =>
    cases ps with
    | nil => rfl
    | cons q qs => rw [mLast_cons₂]; simpa using ih

theorem splitSepCore_trimL (s : Str) :
    hpiece (trimL s) = trimL (hpiece s) ∧ tpieces (trimL s) = tpieces s := by
  induction s with
  | nil => simp [trimL_nil, hpiece_nil, tpieces_nil]
  | cons c rest ih =>
    by_cases hw : isWs c = true
    · have hc : c ≠ sepC := by
        intro he; rw [he, isWs_sepC] at hw; exact absurd hw (by simp)
      rw [trimL_cons_ws hw, hpiece_cons_ne hc, tpieces_cons_ne hc,
        trimL_cons_ws hw]
      exact ih
    · have hw' : isWs c = false := by simpa using hw
      rw [trimL_cons_not_ws hw']
      by_cases hc : c = sepC
      · subst hc
        rw [hpiece_cons_sep]
        exact ⟨trimL_nil.symm, rfl⟩
      · rw [hpiece_cons_ne hc, trimL_cons_not_ws hw']
        exact ⟨rfl, rfl⟩

theorem splitSep_trimR (s : Str) :
    splitSep (trimR s) = mLast trimR (splitSep s) := by
  induction s with
  | nil =>
    rw [trimR_nil, splitSep_eq, hpiece_nil, tpieces_nil, mLast_single, trimR_nil]
  | cons c rest ih =>
    cases h : trimR rest with
    | nil =>
      rw [h, splitSep_eq, hpiece_nil, tpieces_nil] at ih
      cases ht : tpieces rest with
      | cons q qs =>
        rw [splitSep_eq rest, ht, mLast_cons₂] at ih
        obtain ⟨h1, h2⟩ := List.cons.inj ih
        have := mLast_length trimR (q :: qs)
        rw [← h2] at this
        simp at this
      | nil =>
        have hself : hpiece rest = rest := hpiece_eq_self ht
        rw [splitSep_eq rest, ht, mLast_single] at ih
        obtain ⟨h1, h2⟩ := List.cons.inj ih
        rw [trimR_cons_of_nil h]
        by_cases hw : isWs c = true
        · have hc : c ≠ sepC := by
            intro he; rw [he, isWs_sepC] at hw; exact absurd hw (by simp)
          rw [if_pos hw, splitSep_cons_ne hc, hself, ht, mLast_single,
            trimR_cons_of_nil h, if_pos hw]
          rw [splitSep_eq, hpiece_nil, tpieces_nil]
        · have hw' : isWs c = false := by simpa using hw
          rw [if_neg (by simp [hw'])]
          by_cases hc : c = sepC
          · subst hc
            rw [splitSep_cons_sep, splitSep_cons_sep, splitSep_eq rest, ht,
              hself]
            rw [splitSep_eq, hpiece_nil, tpieces_nil, mLast_cons₂, mLast_single,
              h]
          · rw [splitSep_cons_ne hc, hpiece_nil, tpieces_nil, splitSep_cons_ne hc,
              hself, ht, mLast_single, trimR_cons_of_nil h, if_neg (by simp [hw'])]
    | cons d r =>
      rw [h] at ih
      rw [trimR_cons_of_cons h]
      by_cases hc : c = sepC
      · subst hc
        rw [splitSep_cons_sep, splitSep_cons_sep, ih, splitSep_eq rest,
          mLast_cons₂]
      · rw [splitSep_cons_ne hc, splitSep_cons_ne hc]
        cases ht : tpieces rest with
        | nil =>
          have hself : hpiece rest = rest := hpiece_eq_self ht
          rw [splitSep_eq rest, ht, mLast_single] at ih
          obtain ⟨h1, h2⟩ := List.cons.inj ih
          have h1' : hpiece (d :: r) = d :: r := by
            have hx : hpiece (d :: r) = trimR (hpiece rest) := h1
            rw [hx, hself, h]
          have h2' : tpieces (d :: r) = [] := h2
          rw [h1', h2', hself, mLast_single, trimR_cons_of_cons h]
        | cons q qs =>
          rw [splitSep_eq rest, ht, mLast_cons₂] at ih
          obtain ⟨h1, h2⟩ := List.cons.inj ih
          have h1' : hpiece (d :: r) = hpiece rest := h1
          have h2' : tpieces (d :: r) = mLast trimR (q :: qs) := h2
          rw [h1', h2', mLast_cons₂]

/-! ## Canonical segments are preserved by the normalization steps -/

theorem canonOf_eq (s : Str) :
    canonOf s = filterNe (List.map trimStr (splitSep s)) := rfl

theorem canonOf_cons_sep (x : Str) : canonOf (sepC :: x) = canonOf x := by
  rw [canonOf_eq, splitSep_cons_sep, List.map_cons, trimStr_nil,
    filterNe_cons_nil, ← canonOf_eq]

theorem canonOf_trimL (s : Str) : canonOf (trimL s) = canonOf s := by
  rw [canonOf_eq, canonOf_eq, splitSep_eq s, splitSep_eq (trimL s),
    (splitSepCore_trimL s).1, (splitSepCore_trimL s).2, List.map_cons,
    List.map_cons, trimStr_trimL]

theorem filterNe_map_trimStr_mLast (l : List Str) :
    filterNe (List.map trimStr (mLast trimR l)) = filterNe (List.map trimStr l) := by
  induction l with
  | nil => rfl
  | cons p ps ih =>
    cases ps with
    | nil =>
      rw [mLast_single, List.map_cons, List.map_cons, List.map_nil,
        trimStr_trimR]
    | cons q qs =>
      rw [mLast_cons₂, List.map_cons, List.map_cons]
      exact filterNe_cons_congr _ ih

theorem canonOf_trimR (s : Str) : canonOf (trimR s) = canonOf s := by
  rw [canonOf_eq, canonOf_eq, splitSep_trimR]
  exact filterNe_map_trimStr_mLast _

theorem canonOf_trimStr (s : Str) : canonOf (trimStr s) = canonOf s := by
  unfold trimStr
  rw [canonOf_trimR, canonOf_trimL]

/-! ## Separator stripping and collapsing -/

theorem fne_eq (x : Str) : fne x = filterNe (splitSep x) := rfl

theorem fne_nil : fne [] = [] := rfl

theorem fne_cons_sep (x : Str) : fne (sepC :: x) = fne x := by
  rw [fne_eq, splitSep_cons_sep, filterNe_cons_nil, ← fne_eq]

theorem fne_tail_eq {a b : Str} (h1 : hpiece a = hpiece b) (h2 : fne a = fne b) :
    filterNe (tpieces a) = filterNe (tpieces b) := by
  rw [fne_eq, fne_eq, splitSep_eq a, splitSep_eq b] at h2
  by_cases hb : hpiece b = []
  · rw [h1, hb, filterNe_cons_nil, filterNe_cons_nil] at h2
    exact h2
  · rw [h1, filterNe_cons_ne hb, filterNe_cons_ne hb] at h2
    exact (List.cons.inj h2).2

theorem fne_dropLeadSep (x : Str) : fne (dropLeadSep x) = fne x := by
  induction x with
  | nil => rfl
  | cons c rest ih =>
    by_cases hc : c = sepC
    · subst hc
      rw [show dropLeadSep (sepC :: rest) = dropLeadSep rest from by
        simp [dropLeadSep, List.dropWhile]]
      rw [ih, fne_cons_sep]
    · have hb : (c == sepC) = false := by simp [hc]
      rw [show dropLeadSep (c :: rest) = c :: rest from by
        simp [dropLeadSep, List.dropWhile, hb]]

theorem dropTrailSep_nil : dropTrailSep [] = [] := by
  simp [dropTrailSep]

theorem dropTrailSep_cons_of_nil {c : Char} {rest : Str}
    (h : dropTrailSep rest = []) :
    dropTrailSep (c :: rest) = if c = sepC then [] else [c] := by
  simp [dropTrailSep, h, beq_iff_eq]

theorem dropTrailSep_cons_of_cons {c d : Char} {rest r : Str}
    (h : dropTrailSep rest = d :: r) :
    dropTrailSep (c :: rest) = c :: d :: r := by
  simp [dropTrailSep, h]

theorem dropTrailSep_spec (x : Str) :
    (dropTrailSep x = [] → fne x = []) ∧
    (dropTrailSep x ≠ [] → hpiece (dropTrailSep x) = hpiece x ∧
      fne (dropTrailSep x) = fne x) := by
  induction x with
  | nil => exact ⟨fun _ => rfl, fun h => absurd dropTrailSep_nil h⟩
  | cons c rest ih =>
    cases h : dropTrailSep rest with
    | nil =>
      have hfr : fne rest = [] := ih.1 h
      have hall : ∀ p ∈ splitSep rest, p = [] := (filterNe_eq_nil_iff _).mp hfr
      by_cases hc : c = sepC
      · subst hc
        rw [dropTrailSep_cons_of_nil h, if_pos rfl]
        refine ⟨fun _ => ?_, fun hne => absurd rfl hne⟩
        rw [fne_cons_sep, hfr]
      · rw [dropTrailSep_cons_of_nil h, if_neg hc]
        refine ⟨fun hcon => absurd hcon (by simp), fun _ => ?_⟩
        have hh : hpiece rest = [] := by
          apply hall
          rw [splitSep_eq]
          exact List.mem_cons_self _ _
        have htl : filterNe (tpieces rest) = [] := by
          rw [filterNe_eq_nil_iff]
          intro p hp
          exact hall p (by rw [splitSep_eq]; exact List.mem_cons.mpr (Or.inr hp))
        constructor
        · rw [hpiece_cons_ne hc, hpiece_cons_ne hc, hpiece_nil, hh]
        · rw [fne_eq, fne_eq, splitSep_cons_ne hc, splitSep_cons_ne hc,
            hpiece_nil, tpieces_nil, hh]
          rw [filterNe_cons_ne (by simp) ([] : List Str),
            filterNe_cons_ne (by simp) (tpieces rest), htl, filterNe_nil]
    | cons d r =>
      have hne : dropTrailSep rest ≠ [] := by rw [h]; simp
      obtain ⟨hh, hf⟩ := ih.2 hne
      rw [h] at hh hf
      rw [dropTrailSep_cons_of_cons h]
      refine ⟨fun hcon => absurd hcon (by simp), fun _ => ?_⟩
      by_cases hc : c = sepC
      · subst hc
        rw [hpiece_cons_sep, hpiece_cons_sep, fne_cons_sep, fne_cons_sep]
        exact ⟨rfl, hf⟩
      · constructor
        · rw [hpiece_cons_ne hc, hpiece_cons_ne hc, hh]
        · have htl := fne_tail_eq hh hf
          rw [fne_eq, fne_eq, splitSep_cons_ne hc, splitSep_cons_ne hc]
          by_cases hhr : hpiece rest = []
          · rw [hh, hhr, filterNe_cons_ne (by simp) (tpieces (d :: r)),
              filterNe_cons_ne (by simp) (tpieces rest), htl]
          · rw [hh, filterNe_cons_ne (by simp) (tpieces (d :: r)),
              filterNe_cons_ne (by simp) (tpieces rest), htl]

theorem fne_dropTrailSep (x : Str) : fne (dropTrailSep x) = fne x := by
  cases h : dropTrailSep x with
  | nil =>
    have := (dropTrailSep_spec x).1 h
    rw [this, fne_nil]
  | cons d r =>
    have hne : dropTrailSep x ≠ [] := by rw [h]; simp
    have := ((dropTrailSep_spec x).2 hne).2
    rw [h] at this
    exact this

theorem collapseSep_cons₂ (c d : Char) (rest : Str) :
    collapseSep (c :: d :: rest) =
      if c == sepC && d == sepC then collapseSep (d :: rest)
      else c :: collapseSep (d :: rest) := by
  simp [collapseSep]

theorem collapseSep_spec :
    ∀ x : Str, hpiece (collapseSep x) = hpiece x ∧ fne (collapseSep x) = fne x
  | [] => ⟨rfl, rfl⟩
  | [c] => by simp [collapseSep]
  | c :: d :: rest => by
    have ih := collapseSep_spec (d :: rest)
    rw [collapseSep_cons₂]
    by_cases hc : c = sepC
    · by_cases hd : d = sepC
      · rw [if_pos (by simp [hc, hd])]
        subst hc; subst hd
        refine ⟨?_, ?_⟩
        · rw [ih.1, hpiece_cons_sep, hpiece_cons_sep]
        · rw [ih.2, fne_cons_sep, fne_cons_sep, fne_cons_sep]
      · rw [if_neg (by simp [hd])]
        subst hc
        refine ⟨?_, ?_⟩
        · rw [hpiece_cons_sep, hpiece_cons_sep]
        · rw [fne_cons_sep, fne_cons_sep, ih.2]
    · rw [if_neg (by simp [hc])]
      refine ⟨?_, ?_⟩
      · rw [hpiece_cons_ne hc, hpiece_cons_ne hc, ih.1]
      · have htl := fne_tail_eq ih.1 ih.2
        rw [fne_eq, fne_eq, splitSep_cons_ne hc, splitSep_cons_ne hc,
          filterNe_cons_ne (by simp) (tpieces (collapseSep (d :: rest))),
          filterNe_cons_ne (by simp) (tpieces (d :: rest)), ih.1, htl]

/-! ## The master lemma: normalization preserves canonical segments -/

theorem filterNe_map_trimStr_filterNe (l : List Str) :
    filterNe (List.map trimStr (filterNe l)) = filterNe (List.map trimStr l) := by
  induction l with
  | nil => rfl
  | cons p ps ih =>
    cases p with
    | nil =>
      rw [filterNe_cons_nil, List.map_cons, trimStr_nil, filterNe_cons_nil, ih]
    | cons c cs =>
      rw [filterNe_cons_ne (by simp) ps, List.map_cons, List.map_cons]
      exact filterNe_cons_congr _ ih

theorem canonOf_of_fne_eq {a b : Str} (h : fne a = fne b) :
    canonOf a = canonOf b := by
  rw [canonOf_eq, canonOf_eq, ← filterNe_map_trimStr_filterNe (splitSep a),
    ← filterNe_map_trimStr_filterNe (splitSep b), ← fne_eq, ← fne_eq, h]

theorem canonOf_joinSep {Q : List Str} (hfree : ∀ p ∈ Q, sepC ∉ p) :
    canonOf (joinSep Q) = filterNe (List.map trimStr Q) := by
  cases Q with
  | nil =>
    show canonOf [] = filterNe []
    rw [canonOf_eq, splitSep_eq, hpiece_nil, tpieces_nil, List.map_cons,
      List.map_nil, trimStr_nil, filterNe_cons_nil]
  | cons p ps =>
    rw [canonOf_eq, splitSep_joinSep (by simp) hfree]

theorem canonOf_normalizeStr (s : Str) : canonOf (normalizeStr s) = canonOf s := by
  unfold normalizeStr
  have hfree : ∀ p ∈ filterNe (splitSep
      (collapseSep (dropTrailSep (dropLeadSep (trimStr s))))), sepC ∉ p :=
    fun p hp => sep_not_mem_splitSep (mem_filterNe hp).1
  rw [canonOf_joinSep hfree, filterNe_map_trimStr_filterNe, ← canonOf_eq,
    canonOf_of_fne_eq (collapseSep_spec _).2,
    canonOf_of_fne_eq (fne_dropTrailSep _),
    canonOf_of_fne_eq (fne_dropLeadSep _), canonOf_trimStr]

/-! ## Round trips -/

theorem trimR_subset {a : Char} {x : Str} (h : a ∈ trimR x) : a ∈ x := by
  induction x with
  | nil => rw [trimR_nil] at h; exact absurd h (by simp)
  | cons c rest ih =>
    cases hr : trimR rest with
    | nil =>
      rw [trimR_cons_of_nil hr] at h
      by_cases hw : isWs c = true
      · rw [if_pos hw] at h; exact absurd h (by simp)
      · rw [if_neg (by simpa using hw)] at h
        simp at h
        simp [h]
    | cons d r =>
      rw [trimR_cons_of_cons hr] at h
      rcases List.mem_cons.mp h with h1 | h1
      · simp [h1]
      · exact List.mem_cons.mpr (Or.inr (ih (hr ▸ h1)))

theorem trimL_subset {a : Char} {x : Str} (h : a ∈ trimL x) : a ∈ x :=
  (List.dropWhile_sublist isWs).subset h

theorem sep_not_mem_trimStr {p : Str} (h : sepC ∉ p) : sepC ∉ trimStr p :=
  fun hm => h (trimL_subset (trimR_subset hm))

theorem filterNe_of_all_ne {l : List Str} (h : ∀ p ∈ l, p ≠ []) :
    filterNe l = l := by
  unfold filterNe
  rw [List.filter_eq_self]
  intro p hp
  have := h p hp
  cases p with
  | nil => exact absurd rfl this
  | cons c cs => simp

theorem map_trimStr_canon (l : List Str) :
    List.map trimStr (filterNe (List.map trimStr l)) = filterNe (List.map trimStr l) := by
  have h : ∀ p ∈ filterNe (List.map trimStr l), trimStr p = p := by
    intro p hp
    obtain ⟨hmem, _⟩ := mem_filterNe hp
    obtain ⟨x, _, hx⟩ := List.mem_map.mp hmem
    rw [← hx, trimStr_idem]
  calc List.map trimStr (filterNe (List.map trimStr l))
      = List.map id (filterNe (List.map trimStr l)) := List.map_congr_left h
    _ = filterNe (List.map trimStr l) := List.map_id _

theorem normalizeArr_sepFree {l : List Str} (h : ∀ p ∈ l, sepC ∉ p) :
    normalizeArr l = filterNe (List.map trimStr l) := by
  unfold normalizeArr
  have hfree : ∀ p ∈ filterNe (List.map trimStr l), sepC ∉ p := by
    intro p hp
    obtain ⟨hmem, _⟩ := mem_filterNe hp
    obtain ⟨x, hxl, hx⟩ := List.mem_map.mp hmem
    rw [← hx]
    exact sep_not_mem_trimStr (h x hxl)
  have hne : ∀ p ∈ filterNe (List.map trimStr l), p ≠ [] :=
    fun p hp => (mem_filterNe hp).2
  cases hR : filterNe (List.map trimStr l) with
  | nil =>
    show filterNe (splitSep []) = []
    rw [splitSep_eq, hpiece_nil, tpieces_nil, filterNe_cons_nil, filterNe_nil]
  | cons p ps =>
    rw [splitSep_joinSep (by simp) (hR ▸ hfree)]
    exact filterNe_of_all_ne (hR ▸ hne)

theorem messengerAsArray_str (s : Str) :
    messengerAsArray (.str s) = canonOf (normalizeStr s) := rfl

theorem roundTrip_str (s : Str) :
    messengerAsArray (.str (messengerAsString (.str s))) =
      messengerAsArray (.str s) := by
  show canonOf (normalizeStr (sepC :: normalizeStr s)) = canonOf (normalizeStr s)
  rw [canonOf_normalizeStr, canonOf_cons_sep]

theorem roundTrip_arr {l : List Str} (h : ∀ p ∈ l, sepC ∉ p) :
    messengerAsArray (.str (messengerAsString (.arr l))) =
      messengerAsArray (.arr l) := by
  have hN := normalizeArr_sepFree h
  have hfree : ∀ p ∈ filterNe (List.map trimStr l), sepC ∉ p := by
    intro p hp
    obtain ⟨hmem, _⟩ := mem_filterNe hp
    obtain ⟨x, hxl, hx⟩ := List.mem_map.mp hmem
    rw [← hx]
    exact sep_not_mem_trimStr (h x hxl)
  have hne : ∀ p ∈ filterNe (List.map trimStr l), p ≠ [] :=
    fun p hp => (mem_filterNe hp).2
  have hstr : messengerAsString (.arr l) =
      sepC :: joinSep (filterNe (List.map trimStr l)) := by
    show sepC :: joinSep (filterNe (List.map trimStr (normalizeArr l))) = _
    rw [hN, map_trimStr_canon, filterNe_of_all_ne hne]
  rw [hstr]
  show canonOf (normalizeStr (sepC :: joinSep (filterNe (List.map trimStr l)))) = _
  rw [canonOf_normalizeStr, canonOf_cons_sep, canonOf_joinSep hfree,
    map_trimStr_canon, filterNe_of_all_ne hne]
  show _ = normalizeArr l
  rw [hN]

theorem messengerAsString_root_arr : messengerAsString (.arr []) = [sepC] := by
  decide

theorem messengerAsString_root_str : messengerAsString (.str []) = [sepC] := by
  decide

/-! ## Normalization produces no empty segments -/

theorem normalizeStr_segments (s : Str) :
    normalizeStr s = [] ∨ ∀ p ∈ splitSep (normalizeStr s), p ≠ [] := by
  unfold normalizeStr
  cases hQ : filterNe (splitSep (collapseSep (dropTrailSep (dropLeadSep (trimStr s))))) with
  | nil => exact Or.inl rfl
  | cons q qs =>
    right
    have hfree : ∀ p ∈ q :: qs, sepC ∉ p := by
      intro p hp
      exact sep_not_mem_splitSep (mem_filterNe (hQ ▸ hp)).1
    rw [splitSep_joinSep (by simp) hfree]
    intro p hp
    exact (mem_filterNe (hQ ▸ hp)).2

theorem normalizeArr_segments (l : List Str) :
    ∀ p ∈ normalizeArr l, p ≠ [] := by
  intro p hp
  exact (mem_filterNe hp).2

theorem normalizeArr_trimmed {l : List Str} (h : ∀ p ∈ l, sepC ∉ p) :
    ∀ p ∈ normalizeArr l, trimStr p = p := by
  intro p hp
  rw [normalizeArr_sepFree h] at hp
  obtain ⟨hmem, _⟩ := mem_filterNe hp
  obtain ⟨x, _, hx⟩ := List.mem_map.mp hmem
  rw [← hx, trimStr_idem]

/-! ## Messenger equality -/

theorem messengersAreEqual_symm (a b : Option Messenger) :
    messengersAreEqual a b = messengersAreEqual b a := by
  cases a with
  | none => cases b <;> rfl
  | some m1 =>
    cases b with
    | none => rfl
    | some m2 =>
      show (if truthyM m1 && truthyM m2 then
          decide (messengerAsString m1 = messengerAsString m2) else false) =
        (if truthyM m2 && truthyM m1 then
          decide (messengerAsString m2 = messengerAsString m1) else false)
      rw [Bool.and_comm]
      by_cases h : (truthyM m2 && truthyM m1) = true
      · rw [if_pos h, if_pos h]
        exact decide_eq_decide.mpr ⟨Eq.symm, Eq.symm⟩
      · rw [if_neg h, if_neg h]

theorem messengersAreEqual_iff (m1 m2 : Messenger) :
    messengersAreEqual (some m1) (some m2) = true ↔
      truthyM m1 = true ∧ truthyM m2 = true ∧
        messengerAsString m1 = messengerAsString m2 := by
  show (if truthyM m1 && truthyM m2 then
      decide (messengerAsString m1 = messengerAsString m2) else false) = true ↔ _
  by_cases h : (truthyM m1 && truthyM m2) = true
  · rw [if_pos h]
    have h1 := (Bool.and_eq_true _ _).mp h
    simp [h1.1, h1.2]
  · rw [if_neg h]
    constructor
    · intro hcon; exact absurd hcon (by simp)
    · rintro ⟨ht1, ht2, _⟩
      exact absurd ((Bool.and_eq_true _ _).mpr ⟨ht1, ht2⟩) h

theorem messengerAsArray_arr (l : List Str) :
    messengerAsArray (.arr l) = normalizeArr l := rfl

theorem messengersAreEqual_of_canon_arr {l1 l2 : List Str}
    (h : messengerAsArray (.arr l1) = messengerAsArray (.arr l2)) :
    messengersAreEqual (some (.arr l1)) (some (.arr l2)) = true := by
  rw [messengersAreEqual_iff]
  refine ⟨rfl, rfl, ?_⟩
  show sepC :: joinSep (filterNe ((normalizeArr l1).map trimStr)) =
    sepC :: joinSep (filterNe ((normalizeArr l2).map trimStr))
  rw [messengerAsArray_arr, messengerAsArray_arr] at h
  rw [h]

/-! ## Association map lemmas -/

theorem mapGet_mapSet_self {β : Type} (hs : List (Nat × β)) (k : Nat) (v : β) :
    mapGet (mapSet hs k v) k = some v := by
  induction hs with
  | nil => simp [mapSet, mapGet]
  | cons e rest ih =>
    obtain ⟨k', v'⟩ := e
    by_cases h : k' = k
    · simp [mapSet, mapGet, h]
    · simp [mapSet, mapGet, h, ih]

theorem mapSet_absent {β : Type} {hs : List (Nat × β)} {k : Nat}
    (h : mapGet hs k = none) (v : β) : mapSet hs k v = hs ++ [(k, v)] := by
  induction hs with
  | nil => rfl
  | cons e rest ih =>
    obtain ⟨k', v'⟩ := e
    by_cases hk : k' = k
    · rw [mapGet, if_pos hk] at h
      exact absurd h (by simp)
    · rw [mapGet, if_neg hk] at h
      show mapSet ((k', v') :: rest) k v = (k', v') :: (rest ++ [(k, v)])
      rw [mapSet, if_neg hk, ih h]

theorem mapDel_absent {β : Type} {hs : List (Nat × β)} {k : Nat}
    (h : mapGet hs k = none) : mapDel hs k = hs := by
  induction hs with
  | nil => rfl
  | cons e rest ih =>
    obtain ⟨k', v'⟩ := e
    by_cases hk : k' = k
    · rw [mapGet, if_pos hk] at h
      exact absurd h (by simp)
    · rw [mapGet, if_neg hk] at h
      rw [mapDel, if_neg hk, ih h]

theorem mapDel_append_absent {β : Type} {hs : List (Nat × β)} {k : Nat}
    (h : mapGet hs k = none) (v : β) : mapDel (hs ++ [(k, v)]) k = hs := by
  induction hs with
  | nil => simp [mapDel]
  | cons e rest ih =>
    obtain ⟨k', v'⟩ := e
    by_cases hk : k' = k
    · rw [mapGet, if_pos hk] at h
      exact absurd h (by simp)
    · rw [mapGet, if_neg hk] at h
      show mapDel ((k', v') :: (rest ++ [(k, v)])) k = (k', v') :: rest
      rw [mapDel, if_neg hk, ih h]

theorem mapSet_mapSet_same {β : Type} (hs : List (Nat × β)) (k : Nat) (v v' : β) :
    mapSet (mapSet hs k v) k v' = mapSet hs k v' := by
  induction hs with
  | nil => simp [mapSet]
  | cons e rest ih =>
    obtain ⟨k', v''⟩ := e
    by_cases hk : k' = k
    · simp [mapSet, hk]
    · simp [mapSet, hk, ih]

theorem foldl_mapSet_same_key (l : List Nat) (hs : List (Nat × Nat × Nat))
    (k : Nat) (v0 : Nat) :
    l.foldl (fun h p => mapSet h k (k, p)) (mapSet hs k (k, v0)) =
      mapSet hs k (k, l.foldl (fun _ p => p) v0) := by
  induction l generalizing v0 with
  | nil => rfl
  | cons p rest ih =>
    show rest.foldl _ (mapSet (mapSet hs k (k, v0)) k (k, p)) = _
    rw [mapSet_mapSet_same, ih p]
    rfl

theorem foldl_pick_last (xs : List Nat) (x v : Nat) :
    (xs ++ [x]).foldl (fun _ p => p) v = x := by
  rw [List.foldl_append]
  rfl

theorem range_map_foldl (b m v : Nat) :
    ((List.range (m + 1)).map (fun i => b + i)).foldl (fun _ p => p) v = b + m := by
  rw [List.range_succ, List.map_append]
  exact foldl_pick_last _ _ _

theorem mapGet_mem {β : Type} {hs : List (Nat × β)} {k : Nat} {v : β}
    (h : mapGet hs k = some v) : (k, v) ∈ hs := by
  induction hs with
  | nil => exact absurd h (by simp [mapGet])
  | cons e rest ih =>
    obtain ⟨k', v'⟩ := e
    by_cases hk : k' = k
    · rw [mapGet, if_pos hk] at h
      subst hk
      rw [Option.some.injEq] at h
      subst h
      exact List.mem_cons_self _ _
    · rw [mapGet, if_neg hk] at h
      exact List.mem_cons.mpr (Or.inr (ih h))

theorem mem_map_mapDel {β : Type} {γ : Type} {hs : List (Nat × β)} {k : Nat}
    {f : Nat × β → γ} {q : γ} (h : q ∈ (mapDel hs k).map f) : q ∈ hs.map f := by
  induction hs with
  | nil => exact absurd h (by simp [mapDel])
  | cons e rest ih =>
    obtain ⟨k', v'⟩ := e
    by_cases hk : k' = k
    · rw [mapDel, if_pos hk] at h
      rw [List.map_cons]
      exact List.mem_cons.mpr (Or.inr h)
    · rw [mapDel, if_neg hk, List.map_cons] at h
      rw [List.map_cons]
      rcases List.mem_cons.mp h with h1 | h1
      · exact List.mem_cons.mpr (Or.inl h1)
      · exact List.mem_cons.mpr (Or.inr (ih h1))

/-! ## Receive-path invariants -/

theorem forwardMessage_fst (st : SvcState) (m : GMessage) :
    (forwardMessage st m).1 = st := by
  unfold forwardMessage
  split
  · rfl
  · split
    · rfl
    · rfl

theorem forwardMessage_no_resolve {st : SvcState} {m : GMessage} {p : Nat}
    {m' : GMessage} (h : SvcEvent.resolveP p m' ∈ (forwardMessage st m).2) :
    False := by
  unfold forwardMessage at h
  by_cases g1 : messengerIsUpstream st.messenger m.destination = true
  · rw [if_pos g1] at h
    by_cases g2 : st.upstreamAvail = true
    · simp [g2] at h
    · simp [g2] at h
  · rw [if_neg g1] at h
    by_cases g2 : messengersAreEqual (some st.messenger) (some m.destination) = true
    · rw [if_pos g2] at h
      simp at h
    · rw [if_neg g2] at h
      simp only at h
      obtain ⟨kw, _, hkw⟩ := List.mem_filterMap.mp h
      split at hkw
      · exact absurd (Option.some.inj hkw) (by simp)
      · split at hkw
        · exact absurd (Option.some.inj hkw) (by simp)
        · exact absurd hkw (by simp)

theorem handleMessage_not_addressed {st : SvcState} {m : GMessage}
    (h1 : (m.broadcast || messengersAreEqual (some m.destination)
      (some st.messenger)) = false) :
    handleMessage st m = forwardMessage st m := by
  simp [handleMessage, h1]

theorem handleMessage_nonresponse {st : SvcState} {m : GMessage}
    (h1 : (m.broadcast || messengersAreEqual (some m.destination)
      (some st.messenger)) = true)
    (h2 : m.mtype ≠ MessageType.RESPONSE) :
    handleMessage st m = (st, [SvcEvent.hookCall m]) := by
  simp [handleMessage, h1, h2]

theorem handleMessage_response_norid {st : SvcState} {m : GMessage}
    (h1 : (m.broadcast || messengersAreEqual (some m.destination)
      (some st.messenger)) = true)
    (h2 : m.mtype = MessageType.RESPONSE) (hrid : m.requestId = none) :
    handleMessage st m = (st, []) := by
  simp [handleMessage, h1, h2, hrid]

theorem handleMessage_response_miss {st : SvcState} {m : GMessage} {rid : Nat}
    (h1 : (m.broadcast || messengersAreEqual (some m.destination)
      (some st.messenger)) = true)
    (h2 : m.mtype = MessageType.RESPONSE) (hrid : m.requestId = some rid)
    (hget : mapGet st.responseHandlers rid = none) :
    handleMessage st m =
      ({ st with responseHandlers := mapDel st.responseHandlers rid }, []) := by
  simp [handleMessage, h1, h2, hrid, hget]

theorem handleMessage_response_hit {st : SvcState} {m : GMessage}
    {rid cap pid : Nat}
    (h1 : (m.broadcast || messengersAreEqual (some m.destination)
      (some st.messenger)) = true)
    (h2 : m.mtype = MessageType.RESPONSE) (hrid : m.requestId = some rid)
    (hget : mapGet st.responseHandlers rid = some (cap, pid)) :
    handleMessage st m =
      if rid = cap then
        ({ st with responseHandlers := mapDel (mapDel st.responseHandlers rid) rid },
          [SvcEvent.resolveP pid m])
      else ({ st with responseHandlers := mapDel st.responseHandlers rid }, []) := by
  by_cases h3 : rid = cap
  · subst h3
    simp [handleMessage, h1, h2, hrid, hget]
  · simp [handleMessage, h1, h2, hrid, hget, h3]

theorem handleMessage_resolve_mem {st : SvcState} {m : GMessage} {p : Nat}
    {m' : GMessage} (h : SvcEvent.resolveP p m' ∈ (handleMessage st m).2) :
    p ∈ handlerPids st := by
  by_cases h1 : (m.broadcast || messengersAreEqual (some m.destination)
      (some st.messenger)) = true
  · by_cases h2 : m.mtype = MessageType.RESPONSE
    · cases hrid : m.requestId with
      | none => rw [handleMessage_response_norid h1 h2 hrid] at h; simp at h
      | some rid =>
        cases hget : mapGet st.responseHandlers rid with
        | none =>
          rw [handleMessage_response_miss h1 h2 hrid hget] at h
          simp at h
        | some cv =>
          obtain ⟨cap, pid⟩ := cv
          rw [handleMessage_response_hit h1 h2 hrid hget] at h
          by_cases h3 : rid = cap
          · rw [if_pos h3] at h
            simp at h
            rw [h.1]
            exact List.mem_map_of_mem (fun e => e.2.2) (mapGet_mem hget)
          · rw [if_neg h3] at h
            simp at h
    · rw [handleMessage_nonresponse h1 h2] at h
      simp at h
  · have h1' : (m.broadcast || messengersAreEqual (some m.destination)
        (some st.messenger)) = false := by simpa using h1
    rw [handleMessage_not_addressed h1'] at h
    exact absurd h (fun hc => forwardMessage_no_resolve hc)

theorem handleMessage_pids_subset {st : SvcState} {m : GMessage} {q : Nat}
    (h : q ∈ handlerPids (handleMessage st m).1) : q ∈ handlerPids st := by
  by_cases h1 : (m.broadcast || messengersAreEqual (some m.destination)
      (some st.messenger)) = true
  · by_cases h2 : m.mtype = MessageType.RESPONSE
    · cases hrid : m.requestId with
      | none => rw [handleMessage_response_norid h1 h2 hrid] at h; exact h
      | some rid =>
        cases hget : mapGet st.responseHandlers rid with
        | none =>
          rw [handleMessage_response_miss h1 h2 hrid hget] at h
          exact mem_map_mapDel h
        | some cv =>
          obtain ⟨cap, pid⟩ := cv
          rw [handleMessage_response_hit h1 h2 hrid hget] at h
          by_cases h3 : rid = cap
          · rw [if_pos h3] at h
            exact mem_map_mapDel (mem_map_mapDel h)
          · rw [if_neg h3] at h
            exact mem_map_mapDel h
    · rw [handleMessage_nonresponse h1 h2] at h
      exact h
  · have h1' : (m.broadcast || messengersAreEqual (some m.destination)
        (some st.messenger)) = false := by simpa using h1
    rw [handleMessage_not_addressed h1', forwardMessage_fst] at h
    exact h

theorem runMessages_no_resolve {q : Nat} :
    ∀ (ms : List GMessage) (st : SvcState), q ∉ handlerPids st →
      q ∉ handlerPids (runMessages st ms).1 ∧
        ∀ m', SvcEvent.resolveP q m' ∉ (runMessages st ms).2
  | [], st, hq => ⟨hq, by simp [runMessages]⟩
  | m :: ms, st, hq => by
    have hq1 : q ∉ handlerPids (handleMessage st m).1 :=
      fun hc => hq (handleMessage_pids_subset hc)
    have ih := runMessages_no_resolve ms (handleMessage st m).1 hq1
    refine ⟨ih.1, ?_⟩
    intro m' hc
    show False
    have : (runMessages st (m :: ms)).2 =
        (handleMessage st m).2 ++ (runMessages (handleMessage st m).1 ms).2 := rfl
    rw [this] at hc
    rcases List.mem_append.mp hc with hc1 | hc1
    · exact hq (handleMessage_resolve_mem hc1)
    · exact ih.2 m' hc1

/-! ## Segment mismatch loop -/

theorem segMismatch_self (f : List Str) : segMismatch f f = false := by
  induction f with
  | nil => rfl
  | cons a as ih => simp [segMismatch, ih]

theorem segMismatch_iff (f t : List Str) :
    segMismatch f t = true ↔ ∃ i, i < f.length ∧ f[i]? ≠ t[i]? := by
  induction f generalizing t with
  | nil => simp [segMismatch]
  | cons a as ih =>
    cases t with
    | nil =>
      simp only [segMismatch, true_iff]
      exact ⟨0, by simp⟩
    | cons b bs =>
      by_cases hab : a = b
      · subst hab
        rw [show segMismatch (a :: as) (a :: bs) = segMismatch as bs by
          simp [segMismatch]]
        rw [ih bs]
        constructor
        · rintro ⟨i, hi, hne⟩
          exact ⟨i + 1, by simpa using hi, by simpa using hne⟩
        · rintro ⟨i, hi, hne⟩
          cases i with
          | zero => simp at hne
          | succ j =>
            exact ⟨j, by simpa using hi, by simpa using hne⟩
      · simp only [segMismatch, if_neg hab, true_iff]
        exact ⟨0, by simp, by simpa using hab⟩

/-! ## Send-path equations -/

theorem sendMessage_message (st : SvcState) (msg0 : GMessage) (w : Option Nat) :
    (sendMessage st msg0 w).message =
      { msg0 with source := st.messenger, id := st.nextUuid } := by
  simp only [sendMessage]
  split
  · rfl
  · split
    · rfl
    · rfl

theorem sendMessage_targets (st : SvcState) (msg0 : GMessage) (w : Option Nat) :
    (sendMessage st msg0 w).targets =
      routeDestinations { st with nextUuid := st.nextUuid + 1 }
        { msg0 with source := st.messenger, id := st.nextUuid } w := by
  simp only [sendMessage]
  split
  · rfl
  · split
    · rfl
    · rfl

theorem routeDestinations_stamped (st : SvcState) (msg0 : GMessage)
    (u v : Nat) :
    routeDestinations { st with nextUuid := u }
      { msg0 with source := st.messenger, id := v } none =
    routeDestinations st msg0 none := rfl

theorem sendMessage_no_route {st : SvcState} {msg0 : GMessage}
    (h : routeDestinations { st with nextUuid := st.nextUuid + 1 }
      { msg0 with source := st.messenger, id := st.nextUuid } none = []) :
    sendMessage st msg0 none =
      { message := { msg0 with source := st.messenger, id := st.nextUuid },
        targets := [], state := { st with nextUuid := st.nextUuid + 1 },
        reqPromises := [], resolvedNow := true } := by
  simp only [sendMessage]
  rw [h]
  rfl

theorem sendMessage_request_shape {st : SvcState} {msg0 : GMessage} {w : Option Nat}
    (hreq : msg0.mtype = MessageType.REQUEST)
    (hne : routeDestinations { st with nextUuid := st.nextUuid + 1 }
      { msg0 with source := st.messenger, id := st.nextUuid } w ≠ []) :
    sendMessage st msg0 w =
      { message := { msg0 with source := st.messenger, id := st.nextUuid },
        targets := routeDestinations { st with nextUuid := st.nextUuid + 1 }
          { msg0 with source := st.messenger, id := st.nextUuid } w,
        state := {
          messenger := st.messenger,
          workers := st.workers,
          responseHandlers := ((List.range (routeDestinations
              { st with nextUuid := st.nextUuid + 1 }
              { msg0 with source := st.messenger, id := st.nextUuid } w).length).map
            (fun i => st.nextPid + i)).foldl
              (fun hs p => mapSet hs st.nextUuid (st.nextUuid, p))
              st.responseHandlers,
          upstreamAvail := st.upstreamAvail,
          nextUuid := st.nextUuid + 1,
          nextPid := st.nextPid + (routeDestinations
            { st with nextUuid := st.nextUuid + 1 }
            { msg0 with source := st.messenger, id := st.nextUuid } w).length },
        reqPromises := (List.range (routeDestinations
            { st with nextUuid := st.nextUuid + 1 }
            { msg0 with source := st.messenger, id := st.nextUuid } w).length).map
          (fun i => st.nextPid + i),
        resolvedNow := false } := by
  have hie : (routeDestinations { st with nextUuid := st.nextUuid + 1 }
      { msg0 with source := st.messenger, id := st.nextUuid } w).isEmpty = false := by
    cases hr : routeDestinations { st with nextUuid := st.nextUuid + 1 }
        { msg0 with source := st.messenger, id := st.nextUuid } w with
    | nil => exact absurd hr hne
    | cons a l => rfl
  simp only [sendMessage]
  rw [hie]
  simp only [Bool.false_eq_true, if_false]
  have hm : ({ msg0 with source := st.messenger, id := st.nextUuid } : GMessage).mtype = MessageType.REQUEST := hreq
  rw [if_pos hm]

theorem foldl_mapSet_key (l : List Nat) (hl : l ≠ [])
    (hs : List (Nat × Nat × Nat)) (k : Nat) :
    l.foldl (fun h p => mapSet h k (k, p)) hs = mapSet hs k (k, l.getLast hl) := by
  induction l generalizing hs with
  | nil => exact absurd rfl hl
  | cons p rest ih =>
    cases rest with
    | nil => rfl
    | cons q qs =>
      show (q :: qs).foldl _ (mapSet hs k (k, p)) = _
      rw [ih (by simp) (mapSet hs k (k, p)), mapSet_mapSet_same]
      rfl

theorem getLast_range_map (b m : Nat) (h : ((List.range (m + 1)).map
    (fun i => b + i)) ≠ []) :
    ((List.range (m + 1)).map (fun i => b + i)).getLast h = b + m := by
  rw [List.getLast_eq_getElem]
  simp

theorem mem_pids_mapSet {hs : List (Nat × Nat × Nat)} {k : Nat} {v : Nat × Nat}
    {q : Nat} (h : q ∈ (mapSet hs k v).map (fun e => e.2.2)) :
    q ∈ hs.map (fun e => e.2.2) ∨ q = v.2 := by
  induction hs with
  | nil =>
    simp [mapSet] at h
    exact Or.inr h
  | cons e rest ih =>
    obtain ⟨k', v'⟩ := e
    by_cases hk : k' = k
    · rw [mapSet, if_pos hk, List.map_cons] at h
      rcases List.mem_cons.mp h with h1 | h1
      · exact Or.inr h1
      · exact Or.inl (by rw [List.map_cons]; exact List.mem_cons.mpr (Or.inr h1))
    · rw [mapSet, if_neg hk, List.map_cons] at h
      rcases List.mem_cons.mp h with h1 | h1
      · exact Or.inl (by rw [List.map_cons]; exact List.mem_cons.mpr (Or.inl h1))
      · rcases ih h1 with h2 | h2
        · exact Or.inl (by rw [List.map_cons]; exact List.mem_cons.mpr (Or.inr h2))
        · exact Or.inr h2

/-! ## Claim theorems -/

theorem messengerIsUpstream_ite (here there : Messenger) :
    messengerIsUpstream here there =
      (if (messengerAsArray here).length = 0 then false
       else if (messengerAsArray there).length < (messengerAsArray here).length
         then true
       else if segMismatch (messengerAsArray here) (messengerAsArray there)
         then true
       else if (messengerAsArray here).length = (messengerAsArray there).length
         then false
       else false) := rfl

/-- C1: messengerIsUpstream returns false when here canonicalizes to the
empty sequence; true when there's canonical segment count is strictly less
than here's; otherwise true iff some position below the canonical length of
here carries different segments; moreover isUpstream(here, here) is false
and isUpstream is true whenever there is a strict canonical prefix of
here. -/
theorem claim_C1_isUpstream (here there : Messenger) :
    (messengerAsArray here = [] → messengerIsUpstream here there = false) ∧
    (messengerAsArray here ≠ [] →
      (messengerAsArray there).length < (messengerAsArray here).length →
        messengerIsUpstream here there = true) ∧
    (messengerAsArray here ≠ [] →
      (messengerAsArray here).length ≤ (messengerAsArray there).length →
        (messengerIsUpstream here there = true ↔
          ∃ i, i < (messengerAsArray here).length ∧
            (messengerAsArray here)[i]? ≠ (messengerAsArray there)[i]?)) ∧
    messengerIsUpstream here here = false ∧
    (∀ u, u ≠ [] → messengerAsArray there ++ u = messengerAsArray here →
      messengerIsUpstream here there = true) := by
  refine ⟨?_, ?_, ?_, ?_, ?_⟩
  · intro h
    rw [messengerIsUpstream_ite, h]
    simp
  · intro hne hlt
    rw [messengerIsUpstream_ite,
      if_neg (fun hc => hne (List.length_eq_zero.mp hc)), if_pos hlt]
  · intro hne hle
    rw [messengerIsUpstream_ite,
      if_neg (fun hc => hne (List.length_eq_zero.mp hc)),
      if_neg (Nat.not_lt.mpr hle)]
    by_cases hm : segMismatch (messengerAsArray here) (messengerAsArray there)
      = true
    · rw [if_pos hm]
      exact ⟨fun _ => (segMismatch_iff _ _).mp hm, fun _ => rfl⟩
    · rw [if_neg hm]
      constructor
      · intro hcon
        exfalso
        revert hcon
        split <;> simp
      · intro he
        exact absurd ((segMismatch_iff _ _).mpr he) hm
  · rw [messengerIsUpstream_ite]
    by_cases h0 : (messengerAsArray here).length = 0
    · rw [if_pos h0]
    · rw [if_neg h0, if_neg (lt_irrefl _)]
      rw [segMismatch_self]
      simp
  · intro u hu happ
    have hlt : (messengerAsArray there).length < (messengerAsArray here).length := by
      rw [← happ, List.length_append]
      have : 0 < u.length := List.length_pos.mpr hu
      omega
    rw [messengerIsUpstream_ite, if_neg (by omega), if_pos hlt]

/-- C1 witness: the theorem applied to ["a","b"] versus its strict prefix
["a"] and to a reflexive pair. -/
theorem claim_C1_witness :
    messengerIsUpstream (.arr ["a".toList, "b".toList]) (.arr ["a".toList]) = true ∧
    messengerIsUpstream (.str "x".toList) (.str "x".toList) = false :=
  ⟨(claim_C1_isUpstream (.arr ["a".toList, "b".toList])
      (.arr ["a".toList])).2.2.2.2 ["b".toList] (by decide) (by decide),
    (claim_C1_isUpstream (.str "x".toList) (.str "x".toList)).2.2.2.1⟩

/-- C7 counterexample: the round trip changes the canonical segments of the
array address ["a /b"], whose element contains a separator with adjacent
whitespace. -/
theorem claim_C7_counterexample :
    messengerAsArray (.str (messengerAsString (.arr ["a /b".toList]))) ≠
      messengerAsArray (.arr ["a /b".toList]) := by decide

/-- C7 (amended): the round trip messengerAsArray(messengerAsString(a)) =
messengerAsArray(a) holds for every string-form address and for every
array-form address whose elements are separator-free; messengerAsString of
either root form is the separator alone. -/
theorem claim_C7_roundTrip :
    (∀ s : Str, messengerAsArray (.str (messengerAsString (.str s))) =
      messengerAsArray (.str s)) ∧
    (∀ l : List Str, (∀ p ∈ l, sepC ∉ p) →
      messengerAsArray (.str (messengerAsString (.arr l))) =
        messengerAsArray (.arr l)) ∧
    messengerAsString (.str []) = [sepC] ∧
    messengerAsString (.arr []) = [sepC] :=
  ⟨roundTrip_str, fun _ h => roundTrip_arr h,
    messengerAsString_root_str, messengerAsString_root_arr⟩

/-- C7 witness: the round trip evaluated on a messy string address and on a
separator-free array address. -/
theorem claim_C7_witness :
    messengerAsArray (.str (messengerAsString (.str " /x//y ".toList))) =
      messengerAsArray (.str " /x//y ".toList) ∧
    messengerAsArray (.str (messengerAsString
        (.arr ["a b".toList, " c".toList]))) =
      messengerAsArray (.arr ["a b".toList, " c".toList]) :=
  ⟨claim_C7_roundTrip.1 " /x//y ".toList,
    claim_C7_roundTrip.2.1 ["a b".toList, " c".toList] (by decide)⟩

/-- C8 counterexample: equality of the root address with itself in
empty-string form is false (the empty string is JavaScript-falsy), and two
arrays with different canonical segment sequences still compare equal. -/
theorem claim_C8_counterexample :
    messengersAreEqual (some (.str [])) (some (.str [])) = false ∧
    messengerAsArray (.arr ["a /b".toList]) ≠
      messengerAsArray (.arr ["a ".toList, "b".toList]) ∧
    messengersAreEqual (some (.arr ["a /b".toList]))
      (some (.arr ["a ".toList, "b".toList])) = true := by decide

/-- C8 (amended): messengersAreEqual is symmetric and returns false rather
than throwing for null or falsy inputs; for two non-null inputs it is true
iff both are truthy and their canonical string forms coincide; the root
compares equal to itself in empty-array form but not in empty-string form
(the empty string is falsy); equality follows from equal canonical segment
sequences for array-form inputs. -/
theorem claim_C8_equality :
    (∀ a b : Option Messenger,
      messengersAreEqual a b = messengersAreEqual b a) ∧
    (∀ m1 m2 : Messenger, messengersAreEqual (some m1) (some m2) = true ↔
      truthyM m1 = true ∧ truthyM m2 = true ∧
        messengerAsString m1 = messengerAsString m2) ∧
    (∀ x : Option Messenger, messengersAreEqual none x = false ∧
      messengersAreEqual x none = false) ∧
    (∀ l1 l2 : List Str,
      messengerAsArray (.arr l1) = messengerAsArray (.arr l2) →
        messengersAreEqual (some (.arr l1)) (some (.arr l2)) = true) ∧
    messengersAreEqual (some (.arr [])) (some (.arr [])) = true ∧
    messengersAreEqual (some (.str [])) (some (.str [])) = false := by
  refine ⟨messengersAreEqual_symm, messengersAreEqual_iff, ?_, ?_, ?_, ?_⟩
  · intro x
    exact ⟨by cases x <;> rfl, by cases x <;> rfl⟩
  · intro l1 l2 h
    exact messengersAreEqual_of_canon_arr h
  · decide
  · decide

/-- C8 witness: two distinct array spellings of the same canonical address
compare equal. -/
theorem claim_C8_witness :
    messengersAreEqual (some (.arr ["x ".toList]))
      (some (.arr ["x".toList])) = true :=
  claim_C8_equality.2.2.2.1 ["x ".toList] ["x".toList] (by decide)

/-- C9 counterexample: normalizing the string "a / b" keeps the segment
"a ", whose trailing whitespace is not trimmed. -/
theorem claim_C9_counterexample :
    normalizeMessenger (some (.str "a / b".toList)) =
      .ok (.str "a / b".toList) ∧
    "a ".toList ∈ splitSep (normalizeStr "a / b".toList) ∧
    trimStr "a ".toList ≠ "a ".toList :=
  ⟨rfl, by decide, by decide⟩

/-- C9 (amended): normalizeMessenger throws for null/undefined and accepts
the empty string and the empty array as the root; the result contains no
empty segments (so the string form has no leading, trailing or repeated
separators); the segments of an array result whose input elements are
separator-free are fully trimmed, but segments split off at internal
separators of a segment may retain whitespace. -/
theorem claim_C9_normalize :
    (∃ e, normalizeMessenger none = .error e) ∧
    normalizeMessenger (some (.str [])) = .ok (.str []) ∧
    normalizeMessenger (some (.arr [])) = .ok (.arr []) ∧
    (∀ s : Str, normalizeStr s = [] ∨
      ∀ p ∈ splitSep (normalizeStr s), p ≠ []) ∧
    (∀ l : List Str, ∀ p ∈ normalizeArr l, p ≠ []) ∧
    (∀ l : List Str, (∀ p ∈ l, sepC ∉ p) →
      ∀ p ∈ normalizeArr l, trimStr p = p) := by
  refine ⟨⟨"Invalid Messenger".toList, rfl⟩, rfl, rfl,
    normalizeStr_segments, normalizeArr_segments, ?_⟩
  intro l h
  exact normalizeArr_trimmed h

theorem routeDestinations_downstream {st : SvcState} {msg : GMessage}
    (hup : messengerIsUpstream st.messenger msg.destination = false) :
    routeDestinations st msg none = st.workers.filterMap (fun kw =>
      if msg.broadcast then some (RouteTarget.childWorker kw.2)
      else if messengersAreEqual (some msg.destination) (some (.str kw.1)) then
        some (RouteTarget.childWorker kw.2)
      else if messengersAreEqual (some (.arr ((messengerAsArray
          msg.destination).take ((messengerAsArray st.messenger).length + 1))))
          (some (.str kw.1)) then
        some (RouteTarget.childWorker kw.2)
      else none) := by
  simp only [routeDestinations]
  rw [if_neg (by simp [hup])]

theorem routeDestinations_upstream {st : SvcState} {msg : GMessage}
    (hup : messengerIsUpstream st.messenger msg.destination = true) :
    routeDestinations st msg none =
      (if st.upstreamAvail then [RouteTarget.upstreamPort] else []) := by
  simp only [routeDestinations]
  rw [if_pos hup]

theorem filterMap_always_some {α β : Type} (f : α → β) (l : List α) :
    l.filterMap (fun a => some (f a)) = l.map f := by
  induction l with
  | nil => rfl
  | cons a as ih => simp [List.filterMap_cons, ih]

/-- C2: on the downstream route (no override, destination not upstream), a
non-broadcast message is dispatched exactly to the children whose key equals
the destination or equals the next-hop prefix (the first here-length + 1
canonical segments of the destination), and to no one else. -/
theorem claim_C2_downstream_route (st : SvcState) (msg0 : GMessage)
    (hb : msg0.broadcast = false)
    (hup : messengerIsUpstream st.messenger msg0.destination = false) :
    (∀ t ∈ (sendMessage st msg0 none).targets,
      ∃ wid, t = RouteTarget.childWorker wid) ∧
    (∀ wid, RouteTarget.childWorker wid ∈ (sendMessage st msg0 none).targets ↔
      ∃ k, (k, wid) ∈ st.workers ∧
        (messengersAreEqual (some msg0.destination) (some (.str k)) = true ∨
         messengersAreEqual (some (.arr ((messengerAsArray
            msg0.destination).take ((messengerAsArray st.messenger).length + 1))))
           (some (.str k)) = true)) := by
  rw [sendMessage_targets, routeDestinations_stamped,
    routeDestinations_downstream hup]
  constructor
  · intro t ht
    obtain ⟨kw, hmem, hF⟩ := List.mem_filterMap.mp ht
    split at hF
    · exact ⟨kw.2, (Option.some.inj hF).symm⟩
    · split at hF
      · exact ⟨kw.2, (Option.some.inj hF).symm⟩
      · split at hF
        · exact ⟨kw.2, (Option.some.inj hF).symm⟩
        · exact absurd hF (by simp)
  · intro wid
    constructor
    · intro h
      obtain ⟨kw, hmem, hF⟩ := List.mem_filterMap.mp h
      obtain ⟨k, w2⟩ := kw
      split at hF
      · rename_i hcond
        rw [hb] at hcond
        exact absurd hcond (by simp)
      · split at hF
        · rename_i hcond
          have hw : w2 = wid := by
            have := Option.some.inj hF
            exact RouteTarget.childWorker.inj this
          subst hw
          exact ⟨k, hmem, Or.inl hcond⟩
        · split at hF
          · rename_i hcond
            have hw : w2 = wid := by
              have := Option.some.inj hF
              exact RouteTarget.childWorker.inj this
            subst hw
            exact ⟨k, hmem, Or.inr hcond⟩
          · exact absurd hF (by simp)
    · rintro ⟨k, hk, hcond⟩
      refine List.mem_filterMap.mpr ⟨(k, wid), hk, ?_⟩
      rw [show ((k, wid) : Str × Nat).2 = wid from rfl]
      rw [hb]
      simp only [Bool.false_eq_true, if_false]
      rcases hcond with hc | hc
      · rw [if_pos hc]
      · by_cases h1 : messengersAreEqual (some msg0.destination)
            (some (.str k)) = true
        · rw [if_pos h1]
        · rw [if_neg h1, if_pos hc]

/-- C2 witness: the router at ["a"] with children ["a","b"] and ["a","c"]
sends a non-broadcast message to ["a","c"]: only the ["a","c"] child is
dispatched. -/
theorem claim_C2_witness :
    RouteTarget.childWorker 1 ∈ (sendMessage wsvcA wmsgGen none).targets ∧
    RouteTarget.childWorker 0 ∉ (sendMessage wsvcA wmsgGen none).targets :=
  ⟨((claim_C2_downstream_route wsvcA wmsgGen (by decide) (by decide)).2 1).mpr
      ⟨"/a/c".toList, by decide, Or.inl (by decide)⟩,
    by decide⟩

/-- C3 counterexample: a broadcast message whose destination is upstream of
the router is dispatched on the upstream port and reaches no registered
child. -/
theorem claim_C3_counterexample :
    (sendMessage wsvcA wmsgBcast none).targets = [RouteTarget.upstreamPort] ∧
    RouteTarget.childWorker 0 ∉ (sendMessage wsvcA wmsgBcast none).targets ∧
    RouteTarget.childWorker 1 ∉ (sendMessage wsvcA wmsgBcast none).targets := by
  decide

/-- C3 (amended): when the downstream route is taken (no channel override
and the destination is not upstream of the router), a broadcast message is
dispatched to every currently registered child, regardless of the children's
addresses and of the destination. -/
theorem claim_C3_broadcast_downstream (st : SvcState) (msg0 : GMessage)
    (hb : msg0.broadcast = true)
    (hup : messengerIsUpstream st.messenger msg0.destination = false) :
    (sendMessage st msg0 none).targets =
      st.workers.map (fun kw => RouteTarget.childWorker kw.2) := by
  rw [sendMessage_targets, routeDestinations_stamped,
    routeDestinations_downstream hup]
  simp only [hb, if_true]
  exact filterMap_always_some _ _

/-- C3 witness: a broadcast request at the two-children router reaches both
children. -/
theorem claim_C3_witness :
    (sendMessage wsvcA wmsgBReq none).targets =
      [RouteTarget.childWorker 0, RouteTarget.childWorker 1] :=
  (claim_C3_broadcast_downstream wsvcA wmsgBReq (by decide) (by decide)).trans
    (by decide)

theorem handleMessage_events_message {st : SvcState} {m : GMessage}
    {ev : SvcEvent} (h : ev ∈ (handleMessage st m).2) : eventMessage ev = m := by
  by_cases h1 : (m.broadcast || messengersAreEqual (some m.destination)
      (some st.messenger)) = true
  · by_cases h2 : m.mtype = MessageType.RESPONSE
    · cases hrid : m.requestId with
      | none =>
        rw [handleMessage_response_norid h1 h2 hrid] at h
        simp at h
      | some rid =>
        cases hget : mapGet st.responseHandlers rid with
        | none =>
          rw [handleMessage_response_miss h1 h2 hrid hget] at h
          simp at h
        | some cv =>
          obtain ⟨cap, pid⟩ := cv
          rw [handleMessage_response_hit h1 h2 hrid hget] at h
          by_cases h3 : rid = cap
          · rw [if_pos h3] at h
            simp at h
            rw [h]
            rfl
          · rw [if_neg h3] at h
            simp at h
    · rw [handleMessage_nonresponse h1 h2] at h
      simp at h
      rw [h]
      rfl
  · have h1' : (m.broadcast || messengersAreEqual (some m.destination)
        (some st.messenger)) = false := by simpa using h1
    rw [handleMessage_not_addressed h1'] at h
    unfold forwardMessage at h
    by_cases g1 : messengerIsUpstream st.messenger m.destination = true
    · rw [if_pos g1] at h
      by_cases g2 : st.upstreamAvail = true
      · simp [g2] at h
        rw [h]
        rfl
      · simp [g2] at h
    · rw [if_neg g1] at h
      by_cases g2 : messengersAreEqual (some st.messenger)
          (some m.destination) = true
      · rw [if_pos g2] at h
        simp at h
        rw [h]
        rfl
      · rw [if_neg g2] at h
        simp only at h
        obtain ⟨kw, _, hkw⟩ := List.mem_filterMap.mp h
        split at hkw
        · rw [← Option.some.inj hkw]
          rfl
        · split at hkw
          · rw [← Option.some.inj hkw]
            rfl
          · exact absurd hkw (by simp)

/-- C5: sendMessage overwrites exactly the source (with the service's own
address) and the id (with the freshly generated one) and leaves destination,
name, type, broadcast and data untouched; every event of the receive and
forwarding path carries the incoming message unchanged, so no hop ever
rewrites the destination. -/
theorem claim_C5_frame (st : SvcState) (msg0 : GMessage) (w : Option Nat) :
    (sendMessage st msg0 w).message.source = st.messenger ∧
    (sendMessage st msg0 w).message.id = st.nextUuid ∧
    (sendMessage st msg0 w).message.destination = msg0.destination ∧
    (sendMessage st msg0 w).message.name = msg0.name ∧
    (sendMessage st msg0 w).message.mtype = msg0.mtype ∧
    (sendMessage st msg0 w).message.broadcast = msg0.broadcast ∧
    (sendMessage st msg0 w).message.data = msg0.data ∧
    (∀ (st' : SvcState) (m : GMessage) (ev : SvcEvent),
      ev ∈ (handleMessage st' m).2 → eventMessage ev = m) := by
  refine ⟨?_, ?_, ?_, ?_, ?_, ?_, ?_, ?_⟩
  · rw [sendMessage_message]
  · rw [sendMessage_message]
  · rw [sendMessage_message]
  · rw [sendMessage_message]
  · rw [sendMessage_message]
  · rw [sendMessage_message]
  · rw [sendMessage_message]
  · exact fun st' m ev h => handleMessage_events_message h

/-- C5 witness: the frame condition evaluated at the concrete fixture, and
an event of the forwarding path carrying its message unchanged. -/
theorem claim_C5_witness :
    eventMessage (SvcEvent.fwdDown 1 wmsgGen) = wmsgGen :=
  (claim_C5_frame wsvcA wmsgGen none).2.2.2.2.2.2.2 wsvcA wmsgGen
    (SvcEvent.fwdDown 1 wmsgGen) (by decide)

/-- C6: when route selection yields no destinations, sendMessage resolves
right away to null, dispatches nothing, registers no pending responder and
leaves the pending-responder map unchanged (only the uuid counter moved). -/
theorem claim_C6_no_route (st : SvcState) (msg0 : GMessage)
    (h : (sendMessage st msg0 none).targets = []) :
    (sendMessage st msg0 none).resolvedNow = true ∧
    (sendMessage st msg0 none).reqPromises = [] ∧
    (sendMessage st msg0 none).state.responseHandlers = st.responseHandlers ∧
    (sendMessage st msg0 none).state = { st with nextUuid := st.nextUuid + 1 } := by
  have hr : routeDestinations { st with nextUuid := st.nextUuid + 1 }
      { msg0 with source := st.messenger, id := st.nextUuid } none = [] := by
    rw [← sendMessage_targets]
    exact h
  rw [sendMessage_no_route hr]
  exact ⟨rfl, rfl, rfl, rfl⟩

/-- C6 witness: a router with no children and no upstream primitive has no
route for an upstream-bound message. -/
theorem claim_C6_witness :
    (sendMessage wsvcNoRoute wmsgUp none).resolvedNow = true ∧
    (sendMessage wsvcNoRoute wmsgUp none).reqPromises = [] ∧
    (sendMessage wsvcNoRoute wmsgUp none).state.responseHandlers =
      wsvcNoRoute.responseHandlers ∧
    (sendMessage wsvcNoRoute wmsgUp none).state =
      { wsvcNoRoute with nextUuid := wsvcNoRoute.nextUuid + 1 } :=
  claim_C6_no_route wsvcNoRoute wmsgUp (by decide)

/-- C9 witness: the segment guarantees applied on concrete inputs. -/
theorem claim_C9_witness :
    "x".toList ≠ ([] : Str) ∧ trimStr "c".toList = "c".toList :=
  ⟨claim_C9_normalize.2.2.2.2.1 ["x".toList, ([] : Str)] "x".toList (by decide),
    claim_C9_normalize.2.2.2.2.2 ["  c".toList] (by decide) "c".toList (by decide)⟩

/-- C4: a request routed to a single destination registers one pending
responder under the fresh message id; the first matching response resolves
it (emitting exactly one resolution event) and removes it from the pending
map; any later response whose requestId no longer matches a pending
responder leaves the state untouched and produces no event at all — the
received-message hook is not invoked and no error is raised. -/
theorem claim_C4_response_once (st : SvcState) (msg0 : GMessage)
    (t : RouteTarget) (r1 : GMessage)
    (hreq : msg0.mtype = MessageType.REQUEST)
    (htgt : routeDestinations { st with nextUuid := st.nextUuid + 1 }
      { msg0 with source := st.messenger, id := st.nextUuid } none = [t])
    (hfresh : mapGet st.responseHandlers st.nextUuid = none)
    (hr1type : r1.mtype = MessageType.RESPONSE)
    (hr1addr : (r1.broadcast || messengersAreEqual (some r1.destination)
      (some st.messenger)) = true)
    (hr1id : r1.requestId = some st.nextUuid) :
    (sendMessage st msg0 none).message.id = st.nextUuid ∧
    (sendMessage st msg0 none).reqPromises = [st.nextPid] ∧
    (handleMessage (sendMessage st msg0 none).state r1).2 =
      [SvcEvent.resolveP st.nextPid r1] ∧
    (handleMessage (sendMessage st msg0 none).state r1).1.responseHandlers =
      st.responseHandlers ∧
    (∀ (r2 : GMessage) (q : Nat), r2.mtype = MessageType.RESPONSE →
      r2.requestId = some q →
      (r2.broadcast || messengersAreEqual (some r2.destination)
        (some st.messenger)) = true →
      mapGet (handleMessage (sendMessage st msg0 none).state
        r1).1.responseHandlers q = none →
      handleMessage (handleMessage (sendMessage st msg0 none).state r1).1 r2 =
        ((handleMessage (sendMessage st msg0 none).state r1).1, [])) := by
  have hne : routeDestinations { st with nextUuid := st.nextUuid + 1 }
      { msg0 with source := st.messenger, id := st.nextUuid } none ≠ [] := by
    rw [htgt]
    simp
  have hshape := sendMessage_request_shape (w := none) hreq hne
  have hpids : (sendMessage st msg0 none).reqPromises = [st.nextPid] := by
    rw [hshape]
    dsimp only
    rw [htgt]
    simp [List.range_succ]
  have hhs : (sendMessage st msg0 none).state.responseHandlers =
      mapSet st.responseHandlers st.nextUuid (st.nextUuid, st.nextPid) := by
    rw [hshape]
    dsimp only
    rw [htgt]
    simp [List.range_succ]
  have hmsgr : (sendMessage st msg0 none).state.messenger = st.messenger := by
    rw [hshape]
  have h1' : (r1.broadcast || messengersAreEqual (some r1.destination)
      (some (sendMessage st msg0 none).state.messenger)) = true := by
    rw [hmsgr]
    exact hr1addr
  have hget : mapGet (sendMessage st msg0 none).state.responseHandlers
      st.nextUuid = some (st.nextUuid, st.nextPid) := by
    rw [hhs]
    exact mapGet_mapSet_self _ _ _
  have hhit := handleMessage_response_hit h1' hr1type hr1id hget
  rw [if_pos rfl] at hhit
  have hdel : mapDel (mapDel (sendMessage st msg0
      none).state.responseHandlers st.nextUuid) st.nextUuid =
      st.responseHandlers := by
    rw [hhs, mapSet_absent hfresh, mapDel_append_absent hfresh,
      mapDel_absent hfresh]
  refine ⟨by rw [sendMessage_message], hpids, by rw [hhit], ?_, ?_⟩
  · rw [hhit]
    exact hdel
  · intro r2 q h2t h2rid h2addr h2get
    have hmsgr2 : (handleMessage (sendMessage st msg0 none).state
        r1).1.messenger = st.messenger := by
      rw [hhit]
      exact hmsgr
    have h2addr' : (r2.broadcast || messengersAreEqual (some r2.destination)
        (some (handleMessage (sendMessage st msg0 none).state
          r1).1.messenger)) = true := by
      rw [hmsgr2]
      exact h2addr
    rw [handleMessage_response_miss h2addr' h2t h2rid h2get,
      mapDel_absent h2get]

/-- C4 witness: the fixture request to ["a","b"] answered twice by the same
response; the second handling is a silent no-op. -/
theorem claim_C4_witness :
    (handleMessage (sendMessage wsvcA wmsgReq none).state wmsgResp).2 =
      [SvcEvent.resolveP 0 wmsgResp] ∧
    handleMessage (handleMessage (sendMessage wsvcA wmsgReq none).state
        wmsgResp).1 wmsgResp =
      ((handleMessage (sendMessage wsvcA wmsgReq none).state wmsgResp).1, []) :=
  have h := claim_C4_response_once wsvcA wmsgReq (RouteTarget.childWorker 0)
    wmsgResp (by decide) (by decide) (by decide) (by decide) (by decide)
    (by decide)
  ⟨h.2.2.1, h.2.2.2.2 wmsgResp 100 (by decide) (by decide) (by decide)
    (by decide)⟩

/-- C10 (implicit): a request dispatched to two or more destinations
registers every per-destination responder under the same key (the message
id), each registration overwriting the previous one, so the pending map
retains only the last promise; the first per-destination promise is absent
from the pending map and no sequence of subsequently received messages can
ever resolve it, so the combined future (which awaits all per-destination
promises) never resolves. -/
theorem claim_C10_overwritten_responders (st : SvcState) (msg0 : GMessage)
    (hreq : msg0.mtype = MessageType.REQUEST)
    (hlen : 2 ≤ (routeDestinations { st with nextUuid := st.nextUuid + 1 }
      { msg0 with source := st.messenger, id := st.nextUuid } none).length)
    (hbound : ∀ e ∈ st.responseHandlers, e.2.2 < st.nextPid) :
    (sendMessage st msg0 none).reqPromises =
      (List.range (sendMessage st msg0 none).targets.length).map
        (fun i => st.nextPid + i) ∧
    st.nextPid ∈ (sendMessage st msg0 none).reqPromises ∧
    mapGet (sendMessage st msg0 none).state.responseHandlers st.nextUuid =
      some (st.nextUuid,
        st.nextPid + ((sendMessage st msg0 none).targets.length - 1)) ∧
    st.nextPid + ((sendMessage st msg0 none).targets.length - 1) ≠ st.nextPid ∧
    (∀ (ms : List GMessage) (m' : GMessage),
      SvcEvent.resolveP st.nextPid m' ∉
        (runMessages (sendMessage st msg0 none).state ms).2) := by
  have hne : routeDestinations { st with nextUuid := st.nextUuid + 1 }
      { msg0 with source := st.messenger, id := st.nextUuid } none ≠ [] := by
    intro hc
    rw [hc] at hlen
    simp at hlen
  have hshape := sendMessage_request_shape (w := none) hreq hne
  obtain ⟨k, hk⟩ := Nat.exists_eq_add_of_le hlen
  obtain ⟨m, hm⟩ : ∃ m, (routeDestinations { st with nextUuid := st.nextUuid + 1 }
      { msg0 with source := st.messenger, id := st.nextUuid } none).length
        = m + 2 := ⟨k, by omega⟩
  have hlen' : (sendMessage st msg0 none).targets.length = m + 2 := by
    rw [hshape]
    exact hm
  have hH : ((List.range (m + 2)).map (fun i => st.nextPid + i)).foldl
      (fun hs p => mapSet hs st.nextUuid (st.nextUuid, p)) st.responseHandlers
      = mapSet st.responseHandlers st.nextUuid
        (st.nextUuid, st.nextPid + (m + 1)) := by
    rw [show List.range (m + 2) = List.range (m + 1) ++ [m + 1] from
      List.range_succ (m + 1), List.map_append, List.foldl_append]
    have hM : ((List.range (m + 1)).map (fun i => st.nextPid + i)) ≠ [] := by
      simp
    rw [foldl_mapSet_key _ hM, getLast_range_map]
    show mapSet (mapSet st.responseHandlers st.nextUuid
      (st.nextUuid, st.nextPid + m)) st.nextUuid
      (st.nextUuid, st.nextPid + (m + 1)) = _
    rw [mapSet_mapSet_same]
  have hhs : (sendMessage st msg0 none).state.responseHandlers =
      mapSet st.responseHandlers st.nextUuid
        (st.nextUuid, st.nextPid + (m + 1)) := by
    rw [hshape]
    dsimp only
    rw [hm, hH]
  have hsub : (m + 2) - 1 = m + 1 := by omega
  refine ⟨?_, ?_, ?_, ?_, ?_⟩
  · rw [hshape]
  · rw [hshape]
    dsimp only
    refine List.mem_map.mpr ⟨0, List.mem_range.mpr (by omega), by simp⟩
  · rw [hhs, hlen', hsub, mapGet_mapSet_self]
  · rw [hlen', hsub]
    omega
  · intro ms m'
    have hq : st.nextPid ∉ handlerPids (sendMessage st msg0 none).state := by
      intro hc
      unfold handlerPids at hc
      rw [hhs] at hc
      rcases mem_pids_mapSet hc with h1 | h1
      · obtain ⟨e, he, hev⟩ := List.mem_map.mp h1
        have := hbound e he
        omega
      · simp at h1
    exact (runMessages_no_resolve ms (sendMessage st msg0 none).state hq).2 m'

/-- C10 witness: the broadcast request at the two-children fixture; the
pending map holds only the second promise and the first promise is never
resolved, here exercised on a matching incoming response. -/
theorem claim_C10_witness :
    SvcEvent.resolveP 0 wmsgResp ∉
      (runMessages (sendMessage wsvcA wmsgBReq none).state [wmsgResp]).2 ∧
    mapGet (sendMessage wsvcA wmsgBReq none).state.responseHandlers 100 =
      some (100, 1) :=
  have h := claim_C10_overwritten_responders wsvcA wmsgBReq (by decide)
    (by decide) (by decide)
  ⟨h.2.2.2.2 [wmsgResp] wmsgResp, h.2.2.1.trans (by decide)⟩

end MessageWorks
